import Mathlib

/-!
Verification of the HouseProductionSuite sequencer core.

This file shallowly embeds the sequencer, quantizer, command-queue,
snapshot-publisher and phasor logic of the repository (the RhythmEngine
and MelodyEngine plugins plus the djstih_dsp module) into Lean and
proves the specified properties about the embedded definitions.

Modelling conventions:
  * C++ float/double values are modelled as rationals; the concrete
    inputs used in counterexamples and witnesses are exactly
    representable in binary floating point, so double arithmetic and
    rational arithmetic coincide there.
  * Fixed-size C++ arrays are modelled as total functions out of the
    natural numbers; only indices below the compile-time bound are ever
    read or written by the embedded operations, mirroring the bound
    checks of the source.
  * Host sample times are integers (JUCE timeInSamples); the per-sample
    sequencer loop is therefore modelled over natural-number sample
    times, and floors of nonnegative real divisions become natural
    division (for natural a, b, d one has trunc(a/b) = a / b and
    trunc(a/(b/d)) = a * d / b exactly).
  * The audio synthesis itself (envelope levels, oscillator samples) is
    outside the claims under study; voice triggering is modelled by
    counting env.trigger() calls or by emitting trigger actions.
-/

namespace djstih

/-- djstih::Phasor (djstih_dsp.h): a phase accumulator.  Only the phase
member is state; process returns the updated phase. -/
structure Phasor where
  phase : ℚ := 0
deriving DecidableEq

/-- Phasor::process (djstih_dsp.h lines 50-60): when sampleRate > 0,
accumulate frequencyHz / sampleRate and wrap once by subtraction at 1;
otherwise leave the phase untouched.  The float return value equals the
updated phase member. -/
def Phasor.process (p : Phasor) (frequencyHz : ℚ) (sampleRate : ℚ) : Phasor :=
  if sampleRate > 0 then
    let increment := frequencyHz / sampleRate
    let ph := p.phase + increment
    let ph2 := if ph ≥ 1 then ph - 1 else ph
    ⟨ph2⟩
  else p

/-- Phasor::reset. -/
def Phasor.reset (_ : Phasor) : Phasor := ⟨0⟩

end djstih

namespace MelodyEngine

/-- Scale interval tables, from the ScaleQuantizer constructor. -/
def minorIntervals : List Nat := [0, 2, 3, 5, 7, 8, 10]

def dorianIntervals : List Nat := [0, 2, 3, 5, 7, 9, 10]

def mixolydianIntervals : List Nat := [0, 2, 4, 5, 7, 9, 10]

def phrygianIntervals : List Nat := [0, 1, 3, 5, 7, 8, 10]

/-- The four interval tables installed by the ScaleQuantizer constructor. -/
def scaleTables : List (List Nat) :=
  [minorIntervals, dorianIntervals, mixolydianIntervals, phrygianIntervals]

/-- ScaleQuantizer::getScaleIntervals: map lookup with fallback to Minor. -/
def getScaleIntervals (scaleType : String) : List Nat :=
  if scaleType = "Minor" then minorIntervals
  else if scaleType = "Dorian" then dorianIntervals
  else if scaleType = "Mixolydian" then mixolydianIntervals
  else if scaleType = "Phrygian" then phrygianIntervals
  else minorIntervals

/-- One iteration of the best-interval search loop in
ScaleQuantizer::quantize: for a candidate interval, the distance to
relativeNote is checked at the interval itself and at the plus and minus
twelve wraps, each strictly improving (bestDist, bestNote). -/
def quantizeScanStep (relativeNote : Int) (best : Int × Int) (interval : Nat)
    : Int × Int :=
  let d1 := (relativeNote - interval).natAbs
  let b1 := if (d1 : Int) < best.1 then ((d1 : Int), (interval : Int)) else best
  let d2 := (relativeNote - ((interval : Int) + 12)).natAbs
  let b2 := if (d2 : Int) < b1.1 then ((d2 : Int), (interval : Int)) else b1
  let d3 := (relativeNote - ((interval : Int) - 12)).natAbs
  if (d3 : Int) < b2.1 then ((d3 : Int), (interval : Int)) else b2

/-- The full best-interval search of ScaleQuantizer::quantize, starting
from bestDist = 12, bestNote = 0. -/
def scanScale (intervals : List Nat) (relativeNote : Int) : Int × Int :=
  intervals.foldl (quantizeScanStep relativeNote) (12, 0)

/-- relativeNote computed by ScaleQuantizer::quantize: the note within
the octave relative to the root.  For the nonnegative MIDI numbers of
the claims, C++ integer remainder agrees with natural remainder. -/
def relativeNoteOf (midiNote rootNote : Nat) : Nat :=
  (midiNote % 12 + 12 - rootNote % 12) % 12

/-- Core of ScaleQuantizer::quantize for a fixed interval list: scan for
the nearest interval, rebuild the MIDI note in the original octave,
correct octave-boundary jumps larger than six semitones, and clamp with
jlimit(0, 127, result). -/
def quantizeWith (intervals : List Nat) (midiNote rootNote : Nat) : Nat :=
  let octave := midiNote / 12
  let rootInOctave := rootNote % 12
  let relativeNote := relativeNoteOf midiNote rootNote
  let best := scanScale intervals (relativeNote : Int)
  let quantizedRelative := best.2
  let result := (octave : Int) * 12 + (rootInOctave : Int) + quantizedRelative
  let corrected :=
    if (result - (midiNote : Int)).natAbs > 6 then
      if result > (midiNote : Int) then result - 12 else result + 12
    else result
  (max 0 (min 127 corrected)).toNat

/-- ScaleQuantizer::quantize. -/
def quantize (midiNote rootNote : Nat) (scaleType : String) : Nat :=
  quantizeWith (getScaleIntervals scaleType) midiNote rootNote

end MelodyEngine

namespace Melodic

/-- NUM_PHRASE_STEPS (MelodyStructures.h). -/
def NUM_PHRASE_STEPS : Nat := 64

/-- Melodic::NoteModifier (MelodyStructures.h). -/
inductive NoteModifier where
  | None
  | Ratchet2
  | Ratchet4
  | Glide
  | SkipCycle
  | OnlyFirstCycle
deriving DecidableEq

/-- Melodic::NoteEvent (MelodyStructures.h), with its member defaults. -/
structure NoteEvent where
  pitch : ℚ := 60
  velocity : ℚ := 1
  duration : ℚ := 1/4
  probability : ℚ := 1
  active : Bool := false
  modifier : NoteModifier := .None
deriving DecidableEq

/-- Melodic::Phrase.  The fixed 64-entry event array is modelled as a
total function; rootNote is restricted to the nonnegative MIDI range
used by the engine. -/
structure Phrase where
  events : Nat → NoteEvent
  rootNote : Nat := 60
  scaleName : String := "Minor"

end Melodic

namespace MelodyEngine

open Melodic

/-- MelodyEngineAudioProcessor::MelodyCommand (PluginProcessor.h). -/
inductive MelodyCommandType where
  | SetEvent
deriving DecidableEq

structure MelodyCommand where
  type : MelodyCommandType := .SetEvent
  stepIdx : Int := 0
  eventData : NoteEvent := {}
deriving DecidableEq

/-- Capacity of the juce::AbstractFifo used for commands. -/
def fifoCapacity : Nat := 1024

/-- MelodyEngineAudioProcessor::queueCommand (PluginProcessor.h lines
101-110): out-of-range stepIdx is rejected before the FIFO write is
reserved; when the FIFO is full the write yields no slot and the
command is dropped. -/
def queueCommand (fifo : List MelodyCommand) (cmd : MelodyCommand)
    : List MelodyCommand :=
  if cmd.stepIdx < 0 ∨ (NUM_PHRASE_STEPS : Int) ≤ cmd.stepIdx then fifo
  else if fifo.length < fifoCapacity then fifo ++ [cmd] else fifo

/-- The per-command body of processCommands in
MelodyEngineAudioProcessor::processBlock (cpp lines 147-157): bounds
check, then SetEvent overwrites the addressed event and marks the
phrase dirty. -/
def applyMelodyCommand (st : Phrase × Bool) (cmd : MelodyCommand)
    : Phrase × Bool :=
  if 0 ≤ cmd.stepIdx ∧ cmd.stepIdx < (NUM_PHRASE_STEPS : Int) then
    match cmd.type with
    | .SetEvent =>
        ({ st.1 with events := fun j =>
            if j = cmd.stepIdx.toNat then cmd.eventData else st.1.events j },
         true)
  else st

/-- The serialized form of one active NoteEvent, as written by
getStateInformation: property names index, pitch, velocity, duration,
probability.  The modifier member is not written. -/
structure EventTree where
  index : Int
  pitch : ℚ
  velocity : ℚ
  duration : ℚ
  probability : ℚ
deriving DecidableEq

/-- The serialized Phrase subtree: rootNote, scaleName, and one Event
child per active event. -/
structure PhraseTree where
  rootNote : Nat
  scaleName : String
  events : List EventTree
deriving DecidableEq

/-- The Event child written for one active event by
getStateInformation. -/
def eventTreeOf (p : Phrase) (i : Nat) : EventTree :=
  let e := p.events i
  { index := (i : Int), pitch := e.pitch, velocity := e.velocity,
    duration := e.duration, probability := e.probability }

/-- MelodyEngineAudioProcessor::getStateInformation (cpp lines 253-276):
walk the events in index order and append a child only when the event
is active. -/
def getStateInformation (p : Phrase) : PhraseTree :=
  { rootNote := p.rootNote
    scaleName := p.scaleName
    events :=
      ((List.range NUM_PHRASE_STEPS).filter
        (fun i => (p.events i).active)).map (eventTreeOf p) }

/-- One child restore of setStateInformation: with a valid index, mark
the event active and restore pitch, velocity, duration and probability.
The modifier member is not restored. -/
def restoreEventTree (q : Phrase) (et : EventTree) : Phrase :=
  if 0 ≤ et.index ∧ et.index < (NUM_PHRASE_STEPS : Int) then
    { q with events := fun j =>
        if j = et.index.toNat then
          { q.events j with
            active := true,
            pitch := et.pitch,
            velocity := et.velocity,
            duration := et.duration,
            probability := et.probability }
        else q.events j }
  else q

/-- MelodyEngineAudioProcessor::setStateInformation (cpp lines 278-311):
restore rootNote and scaleName, deactivate every event, then restore
each serialized child. -/
def setStateInformation (pt : PhraseTree) (p : Phrase) : Phrase :=
  let p1 : Phrase :=
    { p with rootNote := pt.rootNote, scaleName := pt.scaleName }
  let p2 : Phrase :=
    { p1 with events := fun j => { p1.events j with active := false } }
  pt.events.foldl restoreEventTree p2

end MelodyEngine

namespace MelodyEngine

open Melodic

/-- Observable actions of one MelodyEngine render block: sample-exact
synth render segments (processBlock(buffer, startSample, numSamples))
and voice triggers (synth.triggerBaseNote). -/
inductive MelodyAction where
  | renderSegment (startSample numSamples : Nat)
  | triggerBaseNote (note : Nat) (velocity : ℚ)
deriving DecidableEq

/-- The sequencer part of MelodyEngineAudioProcessor::processBlock (cpp
lines 166-238) as a render plan: with a playing transport, compute
currentSteps = ppq*4, the current step index, and the sample offset of
the next step boundary; when the boundary falls inside the block, split
the render into a pre-boundary segment, the probability-gated,
scale-quantized trigger of the next step's event, and a post-boundary
segment.  The second component is the value stored to
currentStepAtomic.  The C++ int casts truncate toward zero; under the
nonnegative transport positions of the claims they are floors. -/
def melodyProcessBlock (phrase : Phrase) (isPlaying : Bool)
    (bpm ppq sampleRate : ℚ) (numSamples : Nat) (randVal : ℚ)
    : List MelodyAction × Int :=
  if isPlaying then
    let samplesPerBeat := (60 / bpm) * sampleRate
    let currentSteps := ppq * 4
    let stepIndex : Int := ⌊currentSteps⌋ % (NUM_PHRASE_STEPS : Int)
    let nextStepPpq := (⌈currentSteps⌉ : ℚ) / 4
    let ppqToNextStep := nextStepPpq - ppq
    let samplesToNextStep : Int := ⌊ppqToNextStep * samplesPerBeat⌋
    if samplesToNextStep < (numSamples : Int) then
      let stn := samplesToNextStep.toNat
      let pre := if samplesToNextStep > 0 then
          [MelodyAction.renderSegment 0 stn] else []
      let nextStepIndex := ((stepIndex + 1) % (NUM_PHRASE_STEPS : Int)).toNat
      let event := phrase.events nextStepIndex
      let trig := if event.active ∧ randVal ≤ event.probability then
          [MelodyAction.triggerBaseNote
            (quantize (⌊event.pitch⌋).toNat phrase.rootNote phrase.scaleName)
            event.velocity]
        else []
      let remainingSamples := numSamples - stn
      let post := if remainingSamples > 0 then
          [MelodyAction.renderSegment stn remainingSamples] else []
      (pre ++ trig ++ post, stepIndex)
    else
      ([MelodyAction.renderSegment 0 numSamples], stepIndex)
  else
    ([MelodyAction.renderSegment 0 numSamples], -1)

/-- Total samples rendered by a melody render plan. -/
def renderedSamples (plan : List MelodyAction) : Nat :=
  plan.foldl
    (fun acc a => match a with
      | MelodyAction.renderSegment _ n => acc + n
      | MelodyAction.triggerBaseNote _ _ => acc) 0

end MelodyEngine

namespace RhythmEngine

/-- NUM_STEPS and NUM_TRACKS (RhythmStructures.h). -/
def NUM_STEPS : Nat := 16

def NUM_TRACKS : Nat := 4

/-- RhythmEngine::TrackId (RhythmStructures.h). -/
def kickTrack : Nat := 0

def bassTrack : Nat := 1

def hatTrack : Nat := 2

def clapTrack : Nat := 3

/-- RhythmEngine::StepModifier (RhythmStructures.h). -/
inductive StepModifier where
  | None
  | Ratchet2
  | Ratchet4
  | Glide
  | SkipCycle
  | OnlyFirstCycle
deriving DecidableEq

/-- The int value of a StepModifier, as serialized by
static_cast<int>(step.modifier). -/
def StepModifier.toCode : StepModifier → Nat
  | .None => 0
  | .Ratchet2 => 1
  | .Ratchet4 => 2
  | .Glide => 3
  | .SkipCycle => 4
  | .OnlyFirstCycle => 5

/-- The StepModifier obtained by static_cast<StepModifier>(int); only
codes written by toCode are ever produced by the engine. -/
def StepModifier.ofCode : Nat → StepModifier
  | 0 => .None
  | 1 => .Ratchet2
  | 2 => .Ratchet4
  | 3 => .Glide
  | 4 => .SkipCycle
  | 5 => .OnlyFirstCycle
  | _ => .None

/-- RhythmEngine::Step (RhythmStructures.h), with its member defaults. -/
structure Step where
  active : Bool := false
  velocity : ℚ := 1
  probability : ℚ := 1
  modifier : StepModifier := .None
deriving DecidableEq

/-- RhythmEngine::Track: a fixed 16-step row, modelled as a total
function, plus midiNote and name. -/
structure Track where
  steps : Nat → Step
  midiNote : Int := 36
  name : String := ""

/-- RhythmEngine::Pattern: four tracks. -/
structure Pattern where
  tracks : Nat → Track

/-- Write one track slot of a pattern. -/
def setTrack (p : Pattern) (t : Nat) (tr : Track) : Pattern :=
  ⟨fun i => if i = t then tr else p.tracks i⟩

/-- Write one step of one track of a pattern. -/
def modifyStep (p : Pattern) (t s : Nat) (f : Step → Step) : Pattern :=
  setTrack p t
    { p.tracks t with steps := fun j =>
        if j = s then f ((p.tracks t).steps j) else (p.tracks t).steps j }

end RhythmEngine

namespace RhythmEngine

/-- RhythmCommand (RhythmEngine PluginProcessor.h lines 19-25): type
enum plus track index, step index and float value. -/
inductive RhythmCommandType where
  | ToggleStep
  | UpdateVelocity
  | SetTrackGain
deriving DecidableEq

structure RhythmCommand where
  type : RhythmCommandType
  trackIdx : Int := 0
  stepIdx : Int := 0
  value : ℚ := 0
deriving DecidableEq

/-- Capacity of the juce::AbstractFifo used for commands. -/
def fifoCapacity : Nat := 1024

/-- The pattern-relevant state of a RhythmEngineAudioProcessor: the
authoritative pattern, the GUI snapshot, the dirty flag and the pending
command FIFO. -/
structure RhythmProcessor where
  pattern : Pattern
  patternSnapshot : Pattern
  patternDirty : Bool
  commandFifo : List RhythmCommand

/-- RhythmEngineAudioProcessor::queueCommand (PluginProcessor.h lines
98-105): the command is written into the next FIFO slot whenever the
FIFO grants one; no index validation happens here.  A full FIFO grants
no slot and the write is dropped. -/
def queueCommand (st : RhythmProcessor) (cmd : RhythmCommand)
    : RhythmProcessor :=
  if st.commandFifo.length < fifoCapacity then
    { st with commandFifo := st.commandFifo ++ [cmd] }
  else st

/-- The per-command body of processCommands in
RhythmEngineAudioProcessor::processBlock (cpp lines 147-167): bounds
check on both indices, then the command type selects the field write;
each applied write marks the pattern dirty.  The SetTrackGain type has
no branch and is ignored. -/
def applyRhythmCommand (st : Pattern × Bool) (cmd : RhythmCommand)
    : Pattern × Bool :=
  if 0 ≤ cmd.trackIdx ∧ cmd.trackIdx < (NUM_TRACKS : Int) ∧
      0 ≤ cmd.stepIdx ∧ cmd.stepIdx < (NUM_STEPS : Int) then
    match cmd.type with
    | .ToggleStep =>
        (modifyStep st.1 cmd.trackIdx.toNat cmd.stepIdx.toNat
          (fun stp => { stp with active := cmd.value > 1/2 }), true)
    | .UpdateVelocity =>
        (modifyStep st.1 cmd.trackIdx.toNat cmd.stepIdx.toNat
          (fun stp => { stp with velocity := cmd.value }), true)
    | .SetTrackGain => st
  else st

/-- The command drain at the top of processBlock (cpp lines 143-174):
all waiting commands are read from the FIFO and applied in arrival
order. -/
def processWaitingCommands (st : RhythmProcessor) : RhythmProcessor :=
  let r := st.commandFifo.foldl applyRhythmCommand (st.pattern, st.patternDirty)
  { st with pattern := r.1, patternDirty := r.2, commandFifo := [] }

/-- updateSnapshotFromAudio (PluginProcessor.h lines 82-90): when the
pattern is dirty and the try_lock succeeds, copy the authoritative
pattern into the snapshot and clear the dirty flag; otherwise do
nothing.  The try_lock outcome is passed in as lockAcquired. -/
def updateSnapshotFromAudio (st : RhythmProcessor) (lockAcquired : Bool)
    : RhythmProcessor :=
  if st.patternDirty then
    if lockAcquired then
      { st with patternSnapshot := st.pattern, patternDirty := false }
    else st
  else st

/-- The pattern/snapshot effect of one processBlock call (cpp lines
134-450): drain the command FIFO, then render audio (which does not
touch the pattern), then updateSnapshotFromAudio. -/
def renderBlockState (st : RhythmProcessor) (lockAcquired : Bool)
    : RhythmProcessor :=
  updateSnapshotFromAudio (processWaitingCommands st) lockAcquired

/-- getGuiSnapshot (PluginProcessor.h lines 77-80): the UI copies the
snapshot under the lock. -/
def getGuiSnapshot (st : RhythmProcessor) : Pattern := st.patternSnapshot

/-- The zero-initialization loop of initializeDefaultPattern (cpp lines
460-470). -/
def zeroedPattern : Pattern :=
  ⟨fun _ =>
    { steps := fun _ =>
        { active := false, velocity := 1, probability := 1,
          modifier := .None }
      midiNote := 0
      name := "" }⟩

/-- Mark one step active, as the default-pattern setup does. -/
def activateStep (p : Pattern) (t s : Nat) : Pattern :=
  modifyStep p t s (fun stp => { stp with active := true })

/-- RhythmEngineAudioProcessor::initializeDefaultPattern (cpp lines
457-506): zero the pattern, set names and MIDI notes, then place the
four-on-the-floor kick, off-beat bass and hats, and claps on beats two
and four. -/
def initializeDefaultPattern : Pattern :=
  let p := zeroedPattern
  let p := setTrack p kickTrack
    { p.tracks kickTrack with name := "Kick", midiNote := 36 }
  let p := setTrack p clapTrack
    { p.tracks clapTrack with name := "Clap", midiNote := 38 }
  let p := setTrack p hatTrack
    { p.tracks hatTrack with name := "Hat", midiNote := 42 }
  let p := setTrack p bassTrack
    { p.tracks bassTrack with name := "Bass", midiNote := 36 }
  let p := activateStep p kickTrack 0
  let p := activateStep p kickTrack 4
  let p := activateStep p kickTrack 8
  let p := activateStep p kickTrack 12
  let p := activateStep p bassTrack 2
  let p := activateStep p bassTrack 6
  let p := activateStep p bassTrack 10
  let p := activateStep p bassTrack 14
  let p := activateStep p hatTrack 2
  let p := activateStep p hatTrack 6
  let p := activateStep p hatTrack 10
  let p := activateStep p hatTrack 14
  let p := activateStep p clapTrack 4
  activateStep p clapTrack 12

/-- The processor state right after construction: the authoritative
pattern is the default pattern, the snapshot is a default-constructed
Pattern, nothing is dirty and no commands are pending. -/
def initialRhythmProcessor : RhythmProcessor :=
  { pattern := initializeDefaultPattern
    patternSnapshot := ⟨fun _ => { steps := fun _ => {} }⟩
    patternDirty := false
    commandFifo := [] }

end RhythmEngine

namespace RhythmEngine

/-- The serialized form of one Step, as written by patternToValueTree:
properties index, active, velocity, probability and the int-cast
modifier. -/
structure StepTree where
  index : Int
  active : Bool
  velocity : ℚ
  probability : ℚ
  modifier : Nat
deriving DecidableEq

/-- The serialized form of one Track. -/
structure TrackTree where
  name : String
  midiNote : Int
  steps : List StepTree
deriving DecidableEq

/-- The serialized Pattern subtree. -/
structure PatternTree where
  tracks : List TrackTree
deriving DecidableEq

/-- The Step child written for one step by patternToValueTree. -/
def stepTreeOf (track : Track) (s : Nat) : StepTree :=
  let step := track.steps s
  { index := (s : Int), active := step.active, velocity := step.velocity,
    probability := step.probability, modifier := step.modifier.toCode }

/-- The Track child written for one track by patternToValueTree. -/
def trackTreeOf (track : Track) : TrackTree :=
  { name := track.name
    midiNote := track.midiNote
    steps := (List.range NUM_STEPS).map (stepTreeOf track) }

/-- RhythmEngineAudioProcessor::patternToValueTree (cpp lines 508-535):
every track and every step is written, in index order. -/
def patternToValueTree (p : Pattern) : PatternTree :=
  ⟨(List.range NUM_TRACKS).map fun t => trackTreeOf (p.tracks t)⟩

/-- One step restore in patternFromValueTree: with a valid index, all
four step fields are written. -/
def restoreStepTree (tr : Track) (st : StepTree) : Track :=
  if 0 ≤ st.index ∧ st.index < (NUM_STEPS : Int) then
    { tr with steps := fun j =>
        if j = st.index.toNat then
          { active := st.active, velocity := st.velocity,
            probability := st.probability,
            modifier := StepModifier.ofCode st.modifier }
        else tr.steps j }
  else tr

/-- One track restore in patternFromValueTree: name and midiNote are
taken from the tree, then every serialized step is restored. -/
def restoreTrackTree (tr : Track) (tt : TrackTree) : Track :=
  tt.steps.foldl restoreStepTree
    { tr with name := tt.name, midiNote := tt.midiNote }

/-- RhythmEngineAudioProcessor::patternFromValueTree (cpp lines
537-569): children are applied positionally to tracks 0, 1, ..., up to
NUM_TRACKS. -/
def patternFromValueTree (pt : PatternTree) (p : Pattern) : Pattern :=
  ((pt.tracks.take NUM_TRACKS).enum).foldl
    (fun q (te : Nat × TrackTree) =>
      setTrack q te.1 (restoreTrackTree (q.tracks te.1) te.2)) p

end RhythmEngine

namespace RhythmEngine

/-- The logic-gate lambda shouldTriggerLogicGate of processBlock (cpp
lines 244-254): SkipCycle passes on even loop counts, OnlyFirstCycle
only on loop zero, every other modifier passes. -/
def shouldTriggerLogicGate (mod : StepModifier) (currentLoopCount : Nat)
    : Bool :=
  match mod with
  | .SkipCycle => currentLoopCount % 2 == 0
  | .OnlyFirstCycle => currentLoopCount == 0
  | _ => true

/-- The triggerWithMods lambda of processBlock (cpp lines 257-276) for
one track, with the uniform random draw passed in explicitly.  The
first component tells whether the voice fires; the second tells whether
random.nextFloat() was called (the draw happens only after the active
and logic-gate checks pass). -/
def triggerWithMods (step : Step) (currentLoopCount : Nat) (randVal : ℚ)
    : Bool × Bool :=
  if !step.active then (false, false)
  else if !shouldTriggerLogicGate step.modifier currentLoopCount then
    (false, false)
  else if randVal > step.probability then (false, true)
  else (true, true)

/-- The divisions chosen by checkRatchet (cpp lines 300-304). -/
def divisionsFor (mod : StepModifier) : Nat :=
  match mod with
  | .Ratchet2 => 2
  | .Ratchet4 => 4
  | _ => 0

/-- The per-track sequencer state of the rhythm processBlock: the
engine members lastProcessedSampleTime (sentinel -1 when stopped),
the track's ratchet counter, currentLoopCount and
lastStepForLoopDetection, plus a count of env.trigger() calls made for
this track. -/
structure SeqState where
  lastProcessedSampleTime : Int
  ratchetCounter : Nat
  currentLoopCount : Nat
  lastStepForLoopDetection : Int
  triggerCount : Nat
deriving DecidableEq

/-- One iteration of the per-sample sequencer loop of processBlock (cpp
lines 216-335) restricted to a single track: boundary detection with
floor division, loop-count tracking, the gated main trigger, then the
checkRatchet sub-step re-fire.  samplesPerStep is modelled at integral
values (where double arithmetic is exact); positionInStep / subStepLength
equals positionInStep * divisions / samplesPerStep exactly over the
reals, so the natural division here is the C++ truncation. -/
def processSampleForTrack (steps : Nat → Step) (samplesPerStep : Nat)
    (randf : Nat → ℚ) (st : SeqState) (t : Nat) : SeqState :=
  if st.lastProcessedSampleTime < 0 then
    { st with lastProcessedSampleTime := (t : Int) }
  else
    let lastStepIdx := st.lastProcessedSampleTime.toNat / samplesPerStep
    let currentStepIdx := t / samplesPerStep
    let st1 :=
      if currentStepIdx > lastStepIdx then
        let stepToTrigger := currentStepIdx % NUM_STEPS
        let loopCount :=
          if stepToTrigger = 0 ∧
              st.lastStepForLoopDetection = ((NUM_STEPS : Int) - 1) then
            st.currentLoopCount + 1
          else st.currentLoopCount
        let fires := (triggerWithMods (steps stepToTrigger) loopCount
          (randf t)).1
        { st with
          ratchetCounter := 0,
          currentLoopCount := loopCount,
          lastStepForLoopDetection := (stepToTrigger : Int),
          triggerCount := st.triggerCount + (if fires then 1 else 0) }
      else st
    let positionInStep := t % samplesPerStep
    let currentStep := t / samplesPerStep % NUM_STEPS
    let step := steps currentStep
    let divisions := divisionsFor step.modifier
    let st2 :=
      if step.active ∧ 0 < divisions then
        let expectedSubStep := positionInStep * divisions / samplesPerStep
        if expectedSubStep > st1.ratchetCounter ∧
            expectedSubStep < divisions then
          { st1 with
            ratchetCounter := expectedSubStep,
            triggerCount := st1.triggerCount + 1 }
        else st1
      else st1
    { st2 with lastProcessedSampleTime := (t : Int) }

/-- The per-sample loop over one block: sample s of the block has
absolute time blockStartSampleTime + s. -/
def runSequencer (steps : Nat → Step) (samplesPerStep : Nat)
    (randf : Nat → ℚ) (st0 : SeqState) (blockStartSampleTime : Nat)
    (numSamples : Nat) : SeqState :=
  (List.range numSamples).foldl
    (fun st s => processSampleForTrack steps samplesPerStep randf st
      (blockStartSampleTime + s)) st0

end RhythmEngine

namespace Melodic

/-- A concrete phrase whose event 0 is active and carries a Ratchet2
modifier; all other events are default (inactive). -/
def modifierPhrase : Phrase :=
  { events := fun i =>
      if i = 0 then
        { pitch := 60, velocity := 1, duration := 1/4, probability := 1,
          active := true, modifier := .Ratchet2 }
      else {}
    rootNote := 60
    scaleName := "Minor" }

/-- A concrete phrase with all events default (inactive, modifier
None). -/
def blankPhrase : Phrase :=
  { events := fun _ => {}, rootNote := 60, scaleName := "Minor" }

/-- A concrete phrase with every event active at pitch 63 and
probability 1. -/
def allActivePhrase : Phrase :=
  { events := fun _ =>
      { pitch := 63, velocity := 4/5, duration := 1/4, probability := 1,
        active := true, modifier := .None }
    rootNote := 60
    scaleName := "Minor" }

end Melodic

namespace RhythmEngine

/-- A concrete track row with an active Ratchet2 step at index 1 and an
active Ratchet4 step at index 2. -/
def ratchetDemoSteps : Nat → Step := fun s =>
  if s = 1 then { active := true, modifier := .Ratchet2 }
  else if s = 2 then { active := true, modifier := .Ratchet4 }
  else {}

end RhythmEngine

namespace RhythmEngine

/-- Two tracks with the same steps, midiNote and name are equal. -/
theorem Track.ext_fields {t u : Track} (hs : ∀ j, t.steps j = u.steps j)
    (hm : t.midiNote = u.midiNote) (hn : t.name = u.name) : t = u := by
  cases t
  cases u
  simp only [Track.mk.injEq]
  exact ⟨funext hs, hm, hn⟩

/-- Two patterns with the same tracks are equal. -/
theorem Pattern.ext_tracks {p q : Pattern} (h : ∀ i, p.tracks i = q.tracks i) :
    p = q := by
  cases p
  cases q
  simp only [Pattern.mk.injEq]
  exact funext h

end RhythmEngine

/-- C2.  The quantizer claim fails on the code: quantize(61, 60,
"Minor") returns 60, not 62.  relativeNote is 1; the intervals 0 and 2
both lie at absolute distance 1 and the strict-improvement scan keeps
the first-found interval 0, reconstructing 60. -/
theorem quantize_61_60_minor_is_60_not_62 :
    MelodyEngine.quantize 61 60 "Minor" = 60 ∧
      MelodyEngine.quantize 61 60 "Minor" ≠ 62 := by
  constructor
  · decide
  · decide

/-- C2 (amended).  quantize(60, 60, "Minor") stays 60 — the root is
always in-scale — and quantize(61, 60, "Minor") resolves to 60: the
candidate intervals 0 and 2 tie at absolute distance 1 from
relativeNote 1 and the tie is broken by first-found-in-iteration-order,
so the lower interval index 0 wins and the note collapses to the
root. -/
theorem quantize_root_fixed_and_tie_to_lower_interval :
    MelodyEngine.quantize 60 60 "Minor" = 60 ∧
      MelodyEngine.quantize 61 60 "Minor" = 60 := by
  constructor
  · decide
  · decide

/-- C8.  The frequency guard in the claim fails on the code:
Phasor::process only guards sampleRate > 0, so a negative frequency
advances the phase backwards.  From phase 0, process(-1, 2) yields
-1/2: the phase changed although frequency ≤ 0, and the returned phase
is not in [0, 1). -/
theorem phasor_negative_frequency_advances_phase :
    (djstih.Phasor.process ⟨0⟩ (-1) 2).phase = -(1/2) ∧
      (djstih.Phasor.process ⟨0⟩ (-1) 2).phase < 0 := by
  have h : (djstih.Phasor.process ⟨0⟩ (-1) 2).phase = -(1/2) := by
    unfold djstih.Phasor.process
    norm_num
  exact ⟨h, by rw [h]; norm_num⟩

/-- C8 (amended).  Phasor::process accumulates phase += frequency /
sampleRate and wraps modulo 1 by a single subtraction; when
sampleRate ≤ 0 the call is a guarded no-op returning the unchanged
phase (frequency is not guarded).  Whenever 0 ≤ frequency ≤ sampleRate
and the stored phase is in [0, 1), the updated phase is again in
[0, 1). -/
theorem phasor_guard_and_range (p : djstih.Phasor) (f sr : ℚ) :
    (sr ≤ 0 → djstih.Phasor.process p f sr = p) ∧
      (0 < sr → 0 ≤ f → f ≤ sr → 0 ≤ p.phase → p.phase < 1 →
        ((djstih.Phasor.process p f sr).phase = p.phase + f / sr - 1 ∨
            (djstih.Phasor.process p f sr).phase = p.phase + f / sr) ∧
          0 ≤ (djstih.Phasor.process p f sr).phase ∧
          (djstih.Phasor.process p f sr).phase < 1) := by
  constructor
  · intro h
    unfold djstih.Phasor.process
    rw [if_neg (not_lt.mpr h)]
  · intro hsr hf hfs hp0 hp1
    have hdiv0 : 0 ≤ f / sr := div_nonneg hf (le_of_lt hsr)
    have hdiv1 : f / sr ≤ 1 := (div_le_one hsr).mpr hfs
    have hval : (djstih.Phasor.process p f sr).phase =
        if p.phase + f / sr ≥ 1 then p.phase + f / sr - 1
        else p.phase + f / sr := by
      unfold djstih.Phasor.process
      rw [if_pos hsr]
    by_cases hw : p.phase + f / sr ≥ 1
    · rw [hval, if_pos hw]
      refine ⟨Or.inl rfl, by linarith, by linarith⟩
    · rw [hval, if_neg hw]
      push_neg at hw
      refine ⟨Or.inr rfl, by linarith, by linarith⟩

/-- C8 witness: the amended theorem applied at phase 1/2, frequency 1,
sampleRate 2. -/
theorem phasor_guard_and_range_witness :
    ((2 : ℚ) ≤ 0 → djstih.Phasor.process ⟨1/2⟩ 1 2 = ⟨1/2⟩) ∧
      (0 < (2 : ℚ) → (0 : ℚ) ≤ 1 → (1 : ℚ) ≤ 2 → (0 : ℚ) ≤ 1/2 →
        (1/2 : ℚ) < 1 →
        ((djstih.Phasor.process ⟨1/2⟩ 1 2).phase = 1/2 + 1 / 2 - 1 ∨
            (djstih.Phasor.process ⟨1/2⟩ 1 2).phase = 1/2 + 1 / 2) ∧
          0 ≤ (djstih.Phasor.process ⟨1/2⟩ 1 2).phase ∧
          (djstih.Phasor.process ⟨1/2⟩ 1 2).phase < 1) :=
  phasor_guard_and_range ⟨1/2⟩ 1 2

/-- C4.  Trigger eligibility in triggerWithMods is evaluated in the
claimed order: the voice fires exactly when the step is active, the
cycle logic gate passes, and the uniform draw is at most the step's
probability; the random generator is advanced exactly when the step is
active and the gate passes, so the probability draw happens only for
steps that pass the cycle gate.  The gate itself lets SkipCycle pass on
even loop counts, OnlyFirstCycle only on loop zero, and every other
modifier always. -/
theorem triggerWithMods_eligibility_order (step : RhythmEngine.Step)
    (lc : Nat) (r : ℚ) :
    ((RhythmEngine.triggerWithMods step lc r).1 =
        (step.active &&
          RhythmEngine.shouldTriggerLogicGate step.modifier lc &&
          decide (r ≤ step.probability))) ∧
      ((RhythmEngine.triggerWithMods step lc r).2 =
        (step.active &&
          RhythmEngine.shouldTriggerLogicGate step.modifier lc)) ∧
      (RhythmEngine.shouldTriggerLogicGate .SkipCycle lc =
        decide (lc % 2 = 0)) ∧
      (RhythmEngine.shouldTriggerLogicGate .OnlyFirstCycle lc =
        decide (lc = 0)) ∧
      (step.modifier ≠ .SkipCycle → step.modifier ≠ .OnlyFirstCycle →
        RhythmEngine.shouldTriggerLogicGate step.modifier lc = true) := by
  refine ⟨?_, ?_, ?_, ?_, ?_⟩
  · unfold RhythmEngine.triggerWithMods
    by_cases ha : step.active
    · by_cases hg : RhythmEngine.shouldTriggerLogicGate step.modifier lc
      · by_cases hr : r > step.probability
        · simp [ha, hg, hr, not_le.mpr hr]
        · simp [ha, hg, hr, not_lt.mp hr]
      · simp [ha, hg]
    · simp [ha]
  · unfold RhythmEngine.triggerWithMods
    by_cases ha : step.active
    · by_cases hg : RhythmEngine.shouldTriggerLogicGate step.modifier lc
      · by_cases hr : r > step.probability
        · simp [ha, hg, hr]
        · simp [ha, hg, hr]
      · simp [ha, hg]
    · simp [ha]
  · unfold RhythmEngine.shouldTriggerLogicGate
    by_cases h : lc % 2 = 0
    · simp [h]
    · simp [h]
  · unfold RhythmEngine.shouldTriggerLogicGate
    by_cases h : lc = 0
    · simp [h]
    · simp [h]
  · intro h1 h2
    unfold RhythmEngine.shouldTriggerLogicGate
    cases hm : step.modifier
    · rfl
    · rfl
    · rfl
    · rfl
    · exact absurd hm h1
    · exact absurd hm h2

/-- C4 witness: the eligibility characterization applied to an active
SkipCycle step at loop count 2 with draw 1/2. -/
theorem triggerWithMods_eligibility_order_witness :
    ((RhythmEngine.triggerWithMods
        { active := true, modifier := .SkipCycle } 2 (1/2)).1 =
      (true && RhythmEngine.shouldTriggerLogicGate .SkipCycle 2 &&
        decide ((1/2 : ℚ) ≤ 1))) ∧
      ((RhythmEngine.triggerWithMods
          { active := true, modifier := .SkipCycle } 2 (1/2)).2 =
        (true && RhythmEngine.shouldTriggerLogicGate .SkipCycle 2)) ∧
      (RhythmEngine.shouldTriggerLogicGate .SkipCycle 2 =
        decide (2 % 2 = 0)) ∧
      (RhythmEngine.shouldTriggerLogicGate .OnlyFirstCycle 2 =
        decide (2 = 0)) ∧
      (RhythmEngine.StepModifier.SkipCycle ≠ .SkipCycle →
        RhythmEngine.StepModifier.SkipCycle ≠ .OnlyFirstCycle →
        RhythmEngine.shouldTriggerLogicGate .SkipCycle 2 = true) :=
  triggerWithMods_eligibility_order
    { active := true, modifier := .SkipCycle } 2 (1/2)

namespace RhythmEngine

/-- Applying a valid ToggleStep command rewrites the addressed step's
active flag to (value > 0.5), regardless of its previous value. -/
theorem applyToggleStep_eq (p : Pattern) (d : Bool) (tIdx sIdx : Int)
    (v : ℚ) (ht0 : 0 ≤ tIdx) (ht : tIdx < 4) (hs0 : 0 ≤ sIdx)
    (hs : sIdx < 16) :
    applyRhythmCommand (p, d) ⟨.ToggleStep, tIdx, sIdx, v⟩ =
      (modifyStep p tIdx.toNat sIdx.toNat
        (fun stp => { stp with active := decide (v > 1/2) }), true) := by
  have hguard : 0 ≤ tIdx ∧ tIdx < (NUM_TRACKS : Int) ∧
      0 ≤ sIdx ∧ sIdx < (NUM_STEPS : Int) := by
    unfold NUM_TRACKS NUM_STEPS
    exact ⟨ht0, by exact_mod_cast ht, hs0, by exact_mod_cast hs⟩
  unfold applyRhythmCommand
  rw [if_pos hguard]

end RhythmEngine

open RhythmEngine in
/-- C10.  Applying a ToggleStep command writes active = (value > 0.5) to
the addressed step, independent of the step's previous active state, so
applying the same command twice leaves the pattern exactly as applying
it once. -/
theorem toggleStep_sets_value_and_is_idempotent (p : Pattern) (d : Bool)
    (tIdx sIdx : Int) (v : ℚ) (ht0 : 0 ≤ tIdx) (ht : tIdx < 4)
    (hs0 : 0 ≤ sIdx) (hs : sIdx < 16) :
    ((((applyRhythmCommand (p, d) ⟨.ToggleStep, tIdx, sIdx, v⟩).1.tracks
        tIdx.toNat).steps sIdx.toNat).active = decide (v > 1/2)) ∧
      applyRhythmCommand
          (applyRhythmCommand (p, d) ⟨.ToggleStep, tIdx, sIdx, v⟩)
          ⟨.ToggleStep, tIdx, sIdx, v⟩ =
        applyRhythmCommand (p, d) ⟨.ToggleStep, tIdx, sIdx, v⟩ := by
  have h1 := applyToggleStep_eq p d tIdx sIdx v ht0 ht hs0 hs
  constructor
  · rw [h1]
    simp [modifyStep, setTrack]
  · have h2 := applyToggleStep_eq
      (modifyStep p tIdx.toNat sIdx.toNat
        (fun stp => { stp with active := decide (v > 1/2) }))
      true tIdx sIdx v ht0 ht hs0 hs
    have key : modifyStep
        (modifyStep p tIdx.toNat sIdx.toNat
          (fun stp => { stp with active := decide (v > 1/2) }))
        tIdx.toNat sIdx.toNat
        (fun stp => { stp with active := decide (v > 1/2) }) =
        modifyStep p tIdx.toNat sIdx.toNat
          (fun stp => { stp with active := decide (v > 1/2) }) := by
      apply Pattern.ext_tracks
      intro i
      by_cases hi : i = tIdx.toNat
      · apply Track.ext_fields
        · intro j
          by_cases hj : j = sIdx.toNat
          · simp [modifyStep, setTrack, hi, hj]
          · simp [modifyStep, setTrack, hi, hj]
        · simp [modifyStep, setTrack, hi]
        · simp [modifyStep, setTrack, hi]
      · simp [modifyStep, setTrack, hi]
    rw [h1, h2, key]

open RhythmEngine in
/-- C10 witness: on the default pattern, a ToggleStep with value 1 for
kick step 1 sets the flag to true, and applying it twice equals
applying it once. -/
theorem toggleStep_sets_value_and_is_idempotent_witness :
    ((((applyRhythmCommand (initializeDefaultPattern, false)
        ⟨.ToggleStep, 0, 1, 1⟩).1.tracks
        (Int.toNat 0)).steps (Int.toNat 1)).active =
      decide ((1 : ℚ) > 1/2)) ∧
      applyRhythmCommand
          (applyRhythmCommand (initializeDefaultPattern, false)
            ⟨.ToggleStep, 0, 1, 1⟩)
          ⟨.ToggleStep, 0, 1, 1⟩ =
        applyRhythmCommand (initializeDefaultPattern, false)
          ⟨.ToggleStep, 0, 1, 1⟩ :=
  toggleStep_sets_value_and_is_idempotent initializeDefaultPattern false
    0 1 1 (by norm_num) (by norm_num) (by norm_num) (by norm_num)

namespace RhythmEngine

/-- updateSnapshotFromAudio never changes the authoritative pattern. -/
theorem updateSnapshotFromAudio_pattern (st : RhythmProcessor)
    (lock : Bool) :
    (updateSnapshotFromAudio st lock).pattern = st.pattern := by
  unfold updateSnapshotFromAudio
  split
  · split
    · rfl
    · rfl
  · rfl

/-- A command failing the drain-time bounds check leaves the pattern and
dirty flag untouched. -/
theorem applyRhythmCommand_invalid (cmd : RhythmCommand)
    (hr : ¬(0 ≤ cmd.trackIdx ∧ cmd.trackIdx < (NUM_TRACKS : Int) ∧
      0 ≤ cmd.stepIdx ∧ cmd.stepIdx < (NUM_STEPS : Int)))
    (x : Pattern × Bool) : applyRhythmCommand x cmd = x := by
  unfold applyRhythmCommand
  rw [if_neg hr]

end RhythmEngine

open RhythmEngine in
/-- C9.  The rhythm engine's queueCommand does not reject out-of-range
indices at enqueue: an out-of-range ToggleStep is written into a FIFO
slot (the bounds check only happens at drain time). -/
theorem rhythm_queueCommand_accepts_out_of_range :
    (RhythmEngine.queueCommand initialRhythmProcessor
        ⟨.ToggleStep, 99, 0, 1⟩).commandFifo =
      [⟨.ToggleStep, 99, 0, 1⟩] := by
  rfl

open RhythmEngine in
/-- C9 (amended).  The melody engine's queueCommand rejects an
out-of-range stepIdx before reserving a FIFO slot; the rhythm engine's
queueCommand enqueues the command unchecked, but the drain-time bounds
check drops it, so an out-of-range command is never applied: the
authoritative pattern after enqueue plus one render block equals the
pattern that one render block alone would have produced, and the drain
step itself is the identity on the pattern and dirty flag. -/
theorem out_of_range_commands_never_applied (cmd : RhythmCommand)
    (st : RhythmProcessor) (lock : Bool)
    (mfifo : List MelodyEngine.MelodyCommand)
    (mcmd : MelodyEngine.MelodyCommand) (ph : Melodic.Phrase)
    (dm : Bool) (x : Pattern × Bool)
    (hr : ¬(0 ≤ cmd.trackIdx ∧ cmd.trackIdx < (NUM_TRACKS : Int) ∧
      0 ≤ cmd.stepIdx ∧ cmd.stepIdx < (NUM_STEPS : Int)))
    (hm : mcmd.stepIdx < 0 ∨
      (Melodic.NUM_PHRASE_STEPS : Int) ≤ mcmd.stepIdx) :
    MelodyEngine.queueCommand mfifo mcmd = mfifo ∧
      MelodyEngine.applyMelodyCommand (ph, dm) mcmd = (ph, dm) ∧
      applyRhythmCommand x cmd = x ∧
      (renderBlockState (RhythmEngine.queueCommand st cmd) lock).pattern =
        (renderBlockState st lock).pattern := by
  refine ⟨?_, ?_, applyRhythmCommand_invalid cmd hr x, ?_⟩
  · unfold MelodyEngine.queueCommand
    rw [if_pos hm]
  · have hmr : ¬(0 ≤ mcmd.stepIdx ∧
        mcmd.stepIdx < (Melodic.NUM_PHRASE_STEPS : Int)) := by
      rcases hm with h | h
      · intro hc
        exact absurd hc.1 (not_le.mpr h)
      · intro hc
        exact absurd hc.2 (not_lt.mpr h)
    unfold MelodyEngine.applyMelodyCommand
    rw [if_neg hmr]
  · unfold renderBlockState
    rw [updateSnapshotFromAudio_pattern, updateSnapshotFromAudio_pattern]
    unfold RhythmEngine.queueCommand
    by_cases hlen : st.commandFifo.length < fifoCapacity
    · rw [if_pos hlen]
      unfold processWaitingCommands
      simp only [List.foldl_append, List.foldl_cons, List.foldl_nil]
      rw [applyRhythmCommand_invalid cmd hr]
    · rw [if_neg hlen]

open RhythmEngine in
/-- C9 witness: the amended theorem applied to the out-of-range rhythm
command (track 99) on the freshly constructed processor and an
out-of-range melody command (step 64) on an empty FIFO. -/
theorem out_of_range_commands_never_applied_witness :
    MelodyEngine.queueCommand [] ⟨.SetEvent, 64, {}⟩ = [] ∧
      MelodyEngine.applyMelodyCommand (Melodic.blankPhrase, false)
          ⟨.SetEvent, 64, {}⟩ = (Melodic.blankPhrase, false) ∧
      applyRhythmCommand (initializeDefaultPattern, false)
          ⟨.ToggleStep, 99, 0, 1⟩ = (initializeDefaultPattern, false) ∧
      (renderBlockState
          (RhythmEngine.queueCommand initialRhythmProcessor
            ⟨.ToggleStep, 99, 0, 1⟩) true).pattern =
        (renderBlockState initialRhythmProcessor true).pattern :=
  out_of_range_commands_never_applied ⟨.ToggleStep, 99, 0, 1⟩
    initialRhythmProcessor true [] ⟨.SetEvent, 64, {}⟩
    Melodic.blankPhrase false (initializeDefaultPattern, false)
    (by intro h; exact absurd h.2.1 (by decide))
    (Or.inr (by decide))

open RhythmEngine in
/-- C1.  The claim's "flips" fails on the code: applying ToggleStep
writes active = (value > 0.5) rather than negating the flag.  On the
freshly constructed processor, kick step 0 is active; enqueueing
ToggleStep(track 0, step 0, value 1) and running one render block
leaves it active — no flip happened. -/
theorem toggleStep_on_active_step_does_not_flip :
    (((renderBlockState
        (RhythmEngine.queueCommand initialRhythmProcessor
          ⟨.ToggleStep, 0, 0, 1⟩) true).pattern.tracks 0).steps 0).active =
        true ∧
      ((initialRhythmProcessor.pattern.tracks 0).steps 0).active = true := by
  constructor
  · have h := applyToggleStep_eq initializeDefaultPattern false 0 0 1
      (by norm_num) (by norm_num) (by norm_num) (by norm_num)
    have hq : RhythmEngine.queueCommand initialRhythmProcessor
        ⟨.ToggleStep, 0, 0, 1⟩ =
        { initialRhythmProcessor with
          commandFifo := [⟨.ToggleStep, 0, 0, 1⟩] } := rfl
    rw [hq]
    unfold renderBlockState
    rw [updateSnapshotFromAudio_pattern]
    unfold processWaitingCommands
    simp only [List.foldl_cons, List.foldl_nil]
    have hpat : initialRhythmProcessor.pattern = initializeDefaultPattern :=
      rfl
    have hdirty : initialRhythmProcessor.patternDirty = false := rfl
    rw [hpat, hdirty, h]
    simp only [modifyStep, setTrack, Int.toNat_zero]
    norm_num
  · decide

open RhythmEngine in
/-- C1 (amended).  For every valid (trackIdx, stepIdx), enqueueing a
ToggleStep command on an idle queue and running one render block sets
exactly that step's active flag to (value > 0.5) in the authoritative
pattern — a flip whenever the sender encodes the negation of the
current flag, as SequencerGridComponent does — while every other step
and the step's other fields stay unchanged; when updateSnapshotFromAudio
acquires the lock, the snapshot equals the updated pattern. -/
theorem toggleStep_render_sets_active_and_publishes
    (st : RhythmProcessor) (tIdx sIdx : Int) (v : ℚ) (lock : Bool)
    (t' s' : Nat) (hfe : st.commandFifo = []) (ht0 : 0 ≤ tIdx)
    (ht : tIdx < 4) (hs0 : 0 ≤ sIdx) (hs : sIdx < 16)
    (hne : t' ≠ tIdx.toNat ∨ s' ≠ sIdx.toNat) :
    ((((renderBlockState
        (RhythmEngine.queueCommand st ⟨.ToggleStep, tIdx, sIdx, v⟩)
        lock).pattern.tracks tIdx.toNat).steps sIdx.toNat).active =
      decide (v > 1/2)) ∧
    ((((renderBlockState
        (RhythmEngine.queueCommand st ⟨.ToggleStep, tIdx, sIdx, v⟩)
        lock).pattern.tracks tIdx.toNat).steps sIdx.toNat).velocity =
      ((st.pattern.tracks tIdx.toNat).steps sIdx.toNat).velocity) ∧
    ((((renderBlockState
        (RhythmEngine.queueCommand st ⟨.ToggleStep, tIdx, sIdx, v⟩)
        lock).pattern.tracks tIdx.toNat).steps sIdx.toNat).probability =
      ((st.pattern.tracks tIdx.toNat).steps sIdx.toNat).probability) ∧
    ((((renderBlockState
        (RhythmEngine.queueCommand st ⟨.ToggleStep, tIdx, sIdx, v⟩)
        lock).pattern.tracks tIdx.toNat).steps sIdx.toNat).modifier =
      ((st.pattern.tracks tIdx.toNat).steps sIdx.toNat).modifier) ∧
    (((renderBlockState
        (RhythmEngine.queueCommand st ⟨.ToggleStep, tIdx, sIdx, v⟩)
        lock).pattern.tracks t').steps s' =
      (st.pattern.tracks t').steps s') ∧
    (lock = true →
      (renderBlockState
        (RhythmEngine.queueCommand st ⟨.ToggleStep, tIdx, sIdx, v⟩)
        lock).patternSnapshot =
      (renderBlockState
        (RhythmEngine.queueCommand st ⟨.ToggleStep, tIdx, sIdx, v⟩)
        lock).pattern) ∧
    (v = (if ((st.pattern.tracks tIdx.toNat).steps sIdx.toNat).active
        then 0 else 1) →
      (((renderBlockState
          (RhythmEngine.queueCommand st ⟨.ToggleStep, tIdx, sIdx, v⟩)
          lock).pattern.tracks tIdx.toNat).steps sIdx.toNat).active =
        !((st.pattern.tracks tIdx.toNat).steps sIdx.toNat).active) := by
  have hq : RhythmEngine.queueCommand st ⟨.ToggleStep, tIdx, sIdx, v⟩ =
      { st with commandFifo := [⟨.ToggleStep, tIdx, sIdx, v⟩] } := by
    unfold RhythmEngine.queueCommand
    rw [hfe]
    simp [fifoCapacity]
  have hP : processWaitingCommands
      { st with commandFifo := [⟨.ToggleStep, tIdx, sIdx, v⟩] } =
      { st with
        pattern := modifyStep st.pattern tIdx.toNat sIdx.toNat
          (fun stp => { stp with active := decide (v > 1/2) }),
        patternDirty := true,
        commandFifo := [] } := by
    unfold processWaitingCommands
    simp only [List.foldl_cons, List.foldl_nil]
    rw [applyToggleStep_eq st.pattern st.patternDirty tIdx sIdx v
      ht0 ht hs0 hs]
  have hpat : (renderBlockState
      (RhythmEngine.queueCommand st ⟨.ToggleStep, tIdx, sIdx, v⟩)
      lock).pattern =
      modifyStep st.pattern tIdx.toNat sIdx.toNat
        (fun stp => { stp with active := decide (v > 1/2) }) := by
    rw [hq]
    unfold renderBlockState
    rw [updateSnapshotFromAudio_pattern, hP]
  have hact : (((renderBlockState
      (RhythmEngine.queueCommand st ⟨.ToggleStep, tIdx, sIdx, v⟩)
      lock).pattern.tracks tIdx.toNat).steps sIdx.toNat).active =
      decide (v > 1/2) := by
    rw [hpat]
    simp [modifyStep, setTrack]
  refine ⟨hact, ?_, ?_, ?_, ?_, ?_, ?_⟩
  · rw [hpat]
    simp [modifyStep, setTrack]
  · rw [hpat]
    simp [modifyStep, setTrack]
  · rw [hpat]
    simp [modifyStep, setTrack]
  · rw [hpat]
    rcases hne with h | h
    · simp [modifyStep, setTrack, h]
    · by_cases hti : t' = tIdx.toNat
      · simp [modifyStep, setTrack, hti, h]
      · simp [modifyStep, setTrack, hti]
  · intro hl
    subst hl
    rw [hq]
    unfold renderBlockState
    rw [hP]
    unfold updateSnapshotFromAudio
    simp
  · intro hv
    rw [hact, hv]
    rcases hb : ((st.pattern.tracks tIdx.toNat).steps sIdx.toNat).active
    · rw [if_neg (by simp [hb])]
      norm_num
    · rw [if_pos (by simp [hb])]
      norm_num

open RhythmEngine in
/-- C1 witness: the amended theorem applied on the freshly constructed
processor for kick step 1 with value 1 and an acquired lock; the frame
fact is instantiated at the untouched bass track step 1. -/
theorem toggleStep_render_sets_active_and_publishes_witness :
    ((((renderBlockState
        (RhythmEngine.queueCommand initialRhythmProcessor
          ⟨.ToggleStep, 0, 1, 1⟩)
        true).pattern.tracks (Int.toNat 0)).steps (Int.toNat 1)).active =
      decide ((1 : ℚ) > 1/2)) ∧
    ((((renderBlockState
        (RhythmEngine.queueCommand initialRhythmProcessor
          ⟨.ToggleStep, 0, 1, 1⟩)
        true).pattern.tracks (Int.toNat 0)).steps (Int.toNat 1)).velocity =
      ((initialRhythmProcessor.pattern.tracks (Int.toNat 0)).steps
        (Int.toNat 1)).velocity) ∧
    ((((renderBlockState
        (RhythmEngine.queueCommand initialRhythmProcessor
          ⟨.ToggleStep, 0, 1, 1⟩)
        true).pattern.tracks (Int.toNat 0)).steps
        (Int.toNat 1)).probability =
      ((initialRhythmProcessor.pattern.tracks (Int.toNat 0)).steps
        (Int.toNat 1)).probability) ∧
    ((((renderBlockState
        (RhythmEngine.queueCommand initialRhythmProcessor
          ⟨.ToggleStep, 0, 1, 1⟩)
        true).pattern.tracks (Int.toNat 0)).steps
        (Int.toNat 1)).modifier =
      ((initialRhythmProcessor.pattern.tracks (Int.toNat 0)).steps
        (Int.toNat 1)).modifier) ∧
    (((renderBlockState
        (RhythmEngine.queueCommand initialRhythmProcessor
          ⟨.ToggleStep, 0, 1, 1⟩)
        true).pattern.tracks 1).steps 1 =
      (initialRhythmProcessor.pattern.tracks 1).steps 1) ∧
    (true = true →
      (renderBlockState
        (RhythmEngine.queueCommand initialRhythmProcessor
          ⟨.ToggleStep, 0, 1, 1⟩)
        true).patternSnapshot =
      (renderBlockState
        (RhythmEngine.queueCommand initialRhythmProcessor
          ⟨.ToggleStep, 0, 1, 1⟩)
        true).pattern) ∧
    ((1 : ℚ) = (if ((initialRhythmProcessor.pattern.tracks
          (Int.toNat 0)).steps (Int.toNat 1)).active then 0 else 1) →
      (((renderBlockState
          (RhythmEngine.queueCommand initialRhythmProcessor
            ⟨.ToggleStep, 0, 1, 1⟩)
          true).pattern.tracks (Int.toNat 0)).steps
          (Int.toNat 1)).active =
        !((initialRhythmProcessor.pattern.tracks (Int.toNat 0)).steps
          (Int.toNat 1)).active) :=
  toggleStep_render_sets_active_and_publishes initialRhythmProcessor
    0 1 1 true 1 1 rfl (by norm_num) (by norm_num) (by norm_num)
    (by norm_num) (Or.inl (by decide))

namespace MelodyEngine

open Melodic

/-- restoreEventTree leaves every event other than the addressed one
untouched. -/
theorem restoreEventTree_events_ne (q : Phrase) (et : EventTree) (j : Nat)
    (h : ¬(0 ≤ et.index ∧ et.index < (NUM_PHRASE_STEPS : Int) ∧
      et.index.toNat = j)) :
    (restoreEventTree q et).events j = q.events j := by
  unfold restoreEventTree
  by_cases hv : 0 ≤ et.index ∧ et.index < (NUM_PHRASE_STEPS : Int)
  · rw [if_pos hv]
    have hj : j ≠ et.index.toNat := fun hj => h ⟨hv.1, hv.2, hj.symm⟩
    simp [hj]
  · rw [if_neg hv]

/-- restoreEventTree with a valid index restores active, pitch,
velocity, duration and probability at that index, keeping the
modifier. -/
theorem restoreEventTree_events_eq (q : Phrase) (et : EventTree)
    (hv : 0 ≤ et.index ∧ et.index < (NUM_PHRASE_STEPS : Int)) :
    (restoreEventTree q et).events et.index.toNat =
      { q.events et.index.toNat with
        active := true,
        pitch := et.pitch,
        velocity := et.velocity,
        duration := et.duration,
        probability := et.probability } := by
  unfold restoreEventTree
  rw [if_pos hv]
  simp

/-- Folding restoreEventTree over the serialized events of a phrase
restores exactly the listed indices; the modifier member of the target
is kept. -/
theorem foldl_restoreEventTree_map (p : Phrase) (s : List Nat) (q : Phrase)
    (j : Nat) (hnd : s.Nodup) (hs : ∀ i ∈ s, i < NUM_PHRASE_STEPS) :
    ((s.map (eventTreeOf p)).foldl restoreEventTree q).events j =
    if j ∈ s then
      { q.events j with
        active := true,
        pitch := (p.events j).pitch,
        velocity := (p.events j).velocity,
        duration := (p.events j).duration,
        probability := (p.events j).probability }
    else q.events j := by
  induction s generalizing q with
  | nil => simp
  | cons i rest ih =>
    have hnd' : rest.Nodup := hnd.of_cons
    have hs' : ∀ x ∈ rest, x < NUM_PHRASE_STEPS := fun x hx =>
      hs x (List.mem_cons_of_mem i hx)
    have hi : i < NUM_PHRASE_STEPS := hs i (List.mem_cons_self i rest)
    have hvalid : (0 : Int) ≤ (eventTreeOf p i).index ∧
        ((eventTreeOf p i).index < (NUM_PHRASE_STEPS : Int)) := by
      constructor
      · simp [eventTreeOf]
      · simp only [eventTreeOf]
        exact_mod_cast hi
    simp only [List.map_cons, List.foldl_cons]
    rw [ih _ hnd' hs']
    by_cases hji : j = i
    · subst hji
      have hnotin : j ∉ rest := fun hmem => (List.nodup_cons.mp hnd).1 hmem
      rw [if_neg hnotin, if_pos (List.mem_cons_self j rest)]
      have := restoreEventTree_events_eq q (eventTreeOf p j) hvalid
      simpa [eventTreeOf] using this
    · have hne : (restoreEventTree q (eventTreeOf p i)).events j =
          q.events j := by
        apply restoreEventTree_events_ne
        intro hc
        apply hji
        have h2 := hc.2.2
        simp only [eventTreeOf, Int.toNat_natCast] at h2
        exact h2.symm
      by_cases hjr : j ∈ rest
      · rw [if_pos hjr, if_pos (List.mem_cons_of_mem i hjr), hne]
      · have hjir : j ∉ i :: rest := by
          simp [List.mem_cons, hji, hjr]
        rw [if_neg hjr, if_neg hjir, hne]

end MelodyEngine

namespace RhythmEngine

/-- The enum round-trips the modifier. -/
theorem StepModifier.ofCode_toCode (m : StepModifier) :
    StepModifier.ofCode m.toCode = m := by
  cases m <;> rfl

/-- restoreStepTree leaves every step other than the addressed one
untouched. -/
theorem restoreStepTree_steps_ne (tr : Track) (st : StepTree) (j : Nat)
    (h : ¬(0 ≤ st.index ∧ st.index < (NUM_STEPS : Int) ∧
      st.index.toNat = j)) :
    (restoreStepTree tr st).steps j = tr.steps j := by
  unfold restoreStepTree
  by_cases hv : 0 ≤ st.index ∧ st.index < (NUM_STEPS : Int)
  · rw [if_pos hv]
    have hj : j ≠ st.index.toNat := fun hj => h ⟨hv.1, hv.2, hj.symm⟩
    simp [hj]
  · rw [if_neg hv]

/-- restoreStepTree with a valid index writes all four step fields. -/
theorem restoreStepTree_steps_eq (tr : Track) (st : StepTree)
    (hv : 0 ≤ st.index ∧ st.index < (NUM_STEPS : Int)) :
    (restoreStepTree tr st).steps st.index.toNat =
      { active := st.active, velocity := st.velocity,
        probability := st.probability,
        modifier := StepModifier.ofCode st.modifier } := by
  unfold restoreStepTree
  rw [if_pos hv]
  simp

/-- Folding restoreStepTree over the serialized steps of a track row
restores exactly the listed indices. -/
theorem foldl_restoreStepTree_map (src : Track) (s : List Nat)
    (tr : Track) (j : Nat) (hnd : s.Nodup)
    (hs : ∀ i ∈ s, i < NUM_STEPS) :
    ((s.map (stepTreeOf src)).foldl restoreStepTree tr).steps j =
    if j ∈ s then
      { active := (src.steps j).active, velocity := (src.steps j).velocity,
        probability := (src.steps j).probability,
        modifier := StepModifier.ofCode (src.steps j).modifier.toCode }
    else tr.steps j := by
  induction s generalizing tr with
  | nil => simp
  | cons i rest ih =>
    have hnd' : rest.Nodup := hnd.of_cons
    have hs' : ∀ x ∈ rest, x < NUM_STEPS := fun x hx =>
      hs x (List.mem_cons_of_mem i hx)
    have hi : i < NUM_STEPS := hs i (List.mem_cons_self i rest)
    have hvalid : (0 : Int) ≤ (stepTreeOf src i).index ∧
        ((stepTreeOf src i).index < (NUM_STEPS : Int)) := by
      constructor
      · simp [stepTreeOf]
      · simp only [stepTreeOf]
        exact_mod_cast hi
    simp only [List.map_cons, List.foldl_cons]
    rw [ih _ hnd' hs']
    by_cases hji : j = i
    · subst hji
      have hnotin : j ∉ rest := fun hmem => (List.nodup_cons.mp hnd).1 hmem
      rw [if_neg hnotin, if_pos (List.mem_cons_self j rest)]
      have := restoreStepTree_steps_eq tr (stepTreeOf src j) hvalid
      simpa [stepTreeOf] using this
    · have hne : (restoreStepTree tr (stepTreeOf src i)).steps j =
          tr.steps j := by
        apply restoreStepTree_steps_ne
        intro hc
        apply hji
        have h2 := hc.2.2
        simp only [stepTreeOf, Int.toNat_natCast] at h2
        exact h2.symm
      by_cases hjr : j ∈ rest
      · rw [if_pos hjr, if_pos (List.mem_cons_of_mem i hjr)]
      · have hjir : j ∉ i :: rest := by
          simp [List.mem_cons, hji, hjr]
        rw [if_neg hjr, if_neg hjir, hne]

end RhythmEngine

namespace RhythmEngine

/-- Reading one track slot of patternFromValueTree applied to a
four-child PatternTree. -/
theorem patternFromValueTree_tracks_four (q : Pattern) (a b c d : TrackTree)
    (t : Nat) :
    (patternFromValueTree ⟨[a, b, c, d]⟩ q).tracks t =
      if t = 0 then restoreTrackTree (q.tracks 0) a
      else if t = 1 then restoreTrackTree (q.tracks 1) b
      else if t = 2 then restoreTrackTree (q.tracks 2) c
      else if t = 3 then restoreTrackTree (q.tracks 3) d
      else q.tracks t := by
  have htake : List.take NUM_TRACKS [a, b, c, d] = [a, b, c, d] := rfl
  have henum : ([a, b, c, d]).enum = [(0, a), (1, b), (2, c), (3, d)] := rfl
  unfold patternFromValueTree
  rw [show (⟨[a, b, c, d]⟩ : PatternTree).tracks = [a, b, c, d] from rfl,
    htake, henum]
  simp only [List.foldl_cons, List.foldl_nil]
  by_cases h0 : t = 0
  · subst h0
    simp [setTrack]
  · by_cases h1 : t = 1
    · subst h1
      simp [setTrack]
    · by_cases h2 : t = 2
      · subst h2
        simp [setTrack]
      · by_cases h3 : t = 3
        · subst h3
          simp [setTrack]
        · simp [setTrack, h0, h1, h2, h3]

/-- Serializing a Pattern and deserializing it restores every step
field. -/
theorem patternRoundTrip_step (rp rq : Pattern) (t s : Nat)
    (ht : t < NUM_TRACKS) (hs : s < NUM_STEPS) :
    ((patternFromValueTree (patternToValueTree rp) rq).tracks t).steps s =
      (rp.tracks t).steps s := by
  have hsplit : patternToValueTree rp =
      ⟨[trackTreeOf (rp.tracks 0), trackTreeOf (rp.tracks 1),
        trackTreeOf (rp.tracks 2), trackTreeOf (rp.tracks 3)]⟩ := rfl
  have hone : ∀ t', ((restoreTrackTree (rq.tracks t')
      (trackTreeOf (rp.tracks t'))).steps s) = (rp.tracks t').steps s := by
    intro t'
    unfold restoreTrackTree trackTreeOf
    rw [foldl_restoreStepTree_map (rp.tracks t') (List.range NUM_STEPS)
      _ s (List.nodup_range _) (fun x hx => List.mem_range.mp hx)]
    rw [if_pos (List.mem_range.mpr hs), StepModifier.ofCode_toCode]
  rw [hsplit, patternFromValueTree_tracks_four]
  have ht4 : t < 4 := ht
  interval_cases t
  · simpa using hone 0
  · simpa using hone 1
  · simpa using hone 2
  · simpa using hone 3

end RhythmEngine

namespace MelodyEngine

open Melodic

/-- The value of one event after a phrase serialize/deserialize round
trip: active events get their serialized fields back on top of the
target's modifier; inactive events are simply deactivated in the
target. -/
theorem phraseRoundTrip_event (mp mq : Phrase) (i : Nat)
    (hi : i < NUM_PHRASE_STEPS) :
    (setStateInformation (getStateInformation mp) mq).events i =
      (if (mp.events i).active then
        { mq.events i with
          active := true,
          pitch := (mp.events i).pitch,
          velocity := (mp.events i).velocity,
          duration := (mp.events i).duration,
          probability := (mp.events i).probability }
      else { mq.events i with active := false }) := by
  simp only [setStateInformation, getStateInformation]
  rw [foldl_restoreEventTree_map mp _ _ i
    ((List.nodup_range NUM_PHRASE_STEPS).filter _)
    (fun x hx => List.mem_range.mp (List.mem_filter.mp hx).1)]
  by_cases hact : (mp.events i).active
  · have hmem : i ∈ (List.range NUM_PHRASE_STEPS).filter
        (fun k => (mp.events k).active) :=
      List.mem_filter.mpr ⟨List.mem_range.mpr hi, hact⟩
    rw [if_pos hmem, if_pos hact]
  · have hmem : i ∉ (List.range NUM_PHRASE_STEPS).filter
        (fun k => (mp.events k).active) := by
      intro hmem
      exact hact (List.mem_filter.mp hmem).2
    rw [if_neg hmem, if_neg hact]

end MelodyEngine

open RhythmEngine MelodyEngine Melodic in
/-- C5.  The claim fails on the MelodyEngine: getStateInformation never
writes the modifier member (and skips inactive events entirely), so a
round trip loses it.  A phrase whose event 0 is active with modifier
Ratchet2, serialized and deserialized into a default phrase, comes back
with modifier None. -/
theorem phrase_roundtrip_drops_modifier :
    ((setStateInformation (getStateInformation modifierPhrase)
        blankPhrase).events 0).modifier = NoteModifier.None ∧
      (modifierPhrase.events 0).modifier = NoteModifier.Ratchet2 := by
  constructor
  · rw [phraseRoundTrip_event modifierPhrase blankPhrase 0
      (by norm_num [NUM_PHRASE_STEPS])]
    rw [if_pos (by simp [modifierPhrase])]
    simp [blankPhrase]
  · simp [modifierPhrase]

open RhythmEngine MelodyEngine Melodic in
/-- C5 (amended).  Serializing a RhythmEngine Pattern to its state tree
and deserializing it reproduces the active, velocity, probability and
modifier fields of every step.  Serializing a MelodyEngine Phrase
reproduces the active flag of every event and, for active events, the
pitch, velocity, duration and probability fields — but the modifier is
not serialized and stays at the deserialization target's value, and an
inactive event keeps the target's fields apart from being
deactivated. -/
theorem serialize_roundtrip_pattern_full_phrase_partial
    (rp rq : Pattern) (t s : Nat) (mp mq : Phrase) (i : Nat)
    (ht : t < NUM_TRACKS) (hs : s < NUM_STEPS)
    (hi : i < NUM_PHRASE_STEPS) :
    (((patternFromValueTree (patternToValueTree rp) rq).tracks t).steps s =
      (rp.tracks t).steps s) ∧
    (((setStateInformation (getStateInformation mp) mq).events i).active =
      (mp.events i).active) ∧
    ((mp.events i).active = true →
      ((setStateInformation (getStateInformation mp) mq).events i).pitch =
          (mp.events i).pitch ∧
        ((setStateInformation (getStateInformation mp) mq).events
          i).velocity = (mp.events i).velocity ∧
        ((setStateInformation (getStateInformation mp) mq).events
          i).duration = (mp.events i).duration ∧
        ((setStateInformation (getStateInformation mp) mq).events
          i).probability = (mp.events i).probability ∧
        ((setStateInformation (getStateInformation mp) mq).events
          i).modifier = (mq.events i).modifier) ∧
    ((mp.events i).active = false →
      (setStateInformation (getStateInformation mp) mq).events i =
        { mq.events i with active := false }) := by
  refine ⟨patternRoundTrip_step rp rq t s ht hs, ?_, ?_, ?_⟩
  · rw [phraseRoundTrip_event mp mq i hi]
    by_cases hact : (mp.events i).active
    · rw [if_pos hact]
      simp [hact]
    · rw [if_neg hact]
      simp [Bool.eq_false_iff.mpr hact]
  · intro hact
    rw [phraseRoundTrip_event mp mq i hi, if_pos hact]
    simp
  · intro hact
    rw [phraseRoundTrip_event mp mq i hi, if_neg (by simp [hact])]

open RhythmEngine MelodyEngine Melodic in
/-- C5 witness: the amended round-trip statement applied to the default
rhythm pattern restored over a zeroed pattern at kick step 4, and to
the Ratchet2-carrying phrase restored over a blank phrase at event
0. -/
theorem serialize_roundtrip_pattern_full_phrase_partial_witness :
    (((patternFromValueTree (patternToValueTree initializeDefaultPattern)
        zeroedPattern).tracks 0).steps 4 =
      (initializeDefaultPattern.tracks 0).steps 4) ∧
    (((setStateInformation (getStateInformation modifierPhrase)
        blankPhrase).events 0).active = (modifierPhrase.events 0).active) ∧
    ((modifierPhrase.events 0).active = true →
      ((setStateInformation (getStateInformation modifierPhrase)
          blankPhrase).events 0).pitch = (modifierPhrase.events 0).pitch ∧
        ((setStateInformation (getStateInformation modifierPhrase)
          blankPhrase).events 0).velocity =
          (modifierPhrase.events 0).velocity ∧
        ((setStateInformation (getStateInformation modifierPhrase)
          blankPhrase).events 0).duration =
          (modifierPhrase.events 0).duration ∧
        ((setStateInformation (getStateInformation modifierPhrase)
          blankPhrase).events 0).probability =
          (modifierPhrase.events 0).probability ∧
        ((setStateInformation (getStateInformation modifierPhrase)
          blankPhrase).events 0).modifier =
          (blankPhrase.events 0).modifier) ∧
    ((modifierPhrase.events 0).active = false →
      (setStateInformation (getStateInformation modifierPhrase)
        blankPhrase).events 0 =
        { blankPhrase.events 0 with active := false }) :=
  serialize_roundtrip_pattern_full_phrase_partial initializeDefaultPattern
    zeroedPattern 0 4 modifierPhrase blankPhrase 0 (by norm_num [NUM_TRACKS])
    (by norm_num [NUM_STEPS]) (by norm_num [NUM_PHRASE_STEPS])

open Melodic MelodyEngine in
/-- C6.  When the next step boundary (ceil(currentSteps)/4 - ppq,
converted to samples) falls inside the block, the melodic processBlock
splits the render into a pre-boundary segment of exactly
samplesToNextStep samples starting at 0, the probability-gated,
scale-quantized trigger of the next step's event, and a post-boundary
segment covering the remaining samples from the boundary to the end of
the block; the segments tile the block exactly, so the voice is neither
triggered late relative to the boundary nor smeared across it. -/
theorem melody_split_render_tiling (ph : Phrase) (bpm ppq sr : ℚ)
    (numSamples : Nat) (randVal : ℚ) (hbpm : 0 < bpm) (hsr : 0 < sr)
    (_hppq : 0 ≤ ppq)
    (hlt : ⌊((⌈ppq * 4⌉ : ℚ) / 4 - ppq) * ((60 / bpm) * sr)⌋ <
      (numSamples : Int)) :
    (0 : Int) ≤ ⌊((⌈ppq * 4⌉ : ℚ) / 4 - ppq) * ((60 / bpm) * sr)⌋ ∧
    (melodyProcessBlock ph true bpm ppq sr numSamples randVal).1 =
      (if 0 < ⌊((⌈ppq * 4⌉ : ℚ) / 4 - ppq) * ((60 / bpm) * sr)⌋ then
        [MelodyAction.renderSegment 0
          (⌊((⌈ppq * 4⌉ : ℚ) / 4 - ppq) * ((60 / bpm) * sr)⌋).toNat]
      else []) ++
      (if (ph.events (((⌊ppq * 4⌋ % (NUM_PHRASE_STEPS : Int)) + 1) %
            (NUM_PHRASE_STEPS : Int)).toNat).active ∧
          randVal ≤ (ph.events (((⌊ppq * 4⌋ % (NUM_PHRASE_STEPS : Int)) +
            1) % (NUM_PHRASE_STEPS : Int)).toNat).probability then
        [MelodyAction.triggerBaseNote
          (quantize (⌊(ph.events (((⌊ppq * 4⌋ % (NUM_PHRASE_STEPS : Int)) +
              1) % (NUM_PHRASE_STEPS : Int)).toNat).pitch⌋).toNat
            ph.rootNote ph.scaleName)
          (ph.events (((⌊ppq * 4⌋ % (NUM_PHRASE_STEPS : Int)) + 1) %
            (NUM_PHRASE_STEPS : Int)).toNat).velocity]
      else []) ++
      [MelodyAction.renderSegment
        (⌊((⌈ppq * 4⌉ : ℚ) / 4 - ppq) * ((60 / bpm) * sr)⌋).toNat
        (numSamples -
          (⌊((⌈ppq * 4⌉ : ℚ) / 4 - ppq) * ((60 / bpm) * sr)⌋).toNat)] ∧
    renderedSamples
      (melodyProcessBlock ph true bpm ppq sr numSamples randVal).1 =
      numSamples ∧
    (melodyProcessBlock ph true bpm ppq sr numSamples randVal).2 =
      ⌊ppq * 4⌋ % (NUM_PHRASE_STEPS : Int) := by
  have hspb : (0 : ℚ) < (60 / bpm) * sr :=
    mul_pos (div_pos (by norm_num) hbpm) hsr
  have hnext : ppq ≤ (⌈ppq * 4⌉ : ℚ) / 4 := by
    rw [le_div_iff₀ (by norm_num : (0 : ℚ) < 4)]
    exact Int.le_ceil (ppq * 4)
  have hd0 : (0 : ℚ) ≤ ((⌈ppq * 4⌉ : ℚ) / 4 - ppq) * ((60 / bpm) * sr) :=
    mul_nonneg (by linarith) (le_of_lt hspb)
  have hstn0 : (0 : Int) ≤
      ⌊((⌈ppq * 4⌉ : ℚ) / 4 - ppq) * ((60 / bpm) * sr)⌋ :=
    Int.floor_nonneg.mpr hd0
  have hplan : (melodyProcessBlock ph true bpm ppq sr numSamples
      randVal) =
      ((if 0 < ⌊((⌈ppq * 4⌉ : ℚ) / 4 - ppq) * ((60 / bpm) * sr)⌋ then
        [MelodyAction.renderSegment 0
          (⌊((⌈ppq * 4⌉ : ℚ) / 4 - ppq) * ((60 / bpm) * sr)⌋).toNat]
      else []) ++
      (if (ph.events (((⌊ppq * 4⌋ % (NUM_PHRASE_STEPS : Int)) + 1) %
            (NUM_PHRASE_STEPS : Int)).toNat).active ∧
          randVal ≤ (ph.events (((⌊ppq * 4⌋ % (NUM_PHRASE_STEPS : Int)) +
            1) % (NUM_PHRASE_STEPS : Int)).toNat).probability then
        [MelodyAction.triggerBaseNote
          (quantize (⌊(ph.events (((⌊ppq * 4⌋ % (NUM_PHRASE_STEPS : Int)) +
              1) % (NUM_PHRASE_STEPS : Int)).toNat).pitch⌋).toNat
            ph.rootNote ph.scaleName)
          (ph.events (((⌊ppq * 4⌋ % (NUM_PHRASE_STEPS : Int)) + 1) %
            (NUM_PHRASE_STEPS : Int)).toNat).velocity]
      else []) ++
      [MelodyAction.renderSegment
        (⌊((⌈ppq * 4⌉ : ℚ) / 4 - ppq) * ((60 / bpm) * sr)⌋).toNat
        (numSamples -
          (⌊((⌈ppq * 4⌉ : ℚ) / 4 - ppq) * ((60 / bpm) * sr)⌋).toNat)],
      ⌊ppq * 4⌋ % (NUM_PHRASE_STEPS : Int)) := by
    unfold melodyProcessBlock
    rw [if_pos rfl, if_pos hlt]
    have hrem : 0 < numSamples -
        (⌊((⌈ppq * 4⌉ : ℚ) / 4 - ppq) * ((60 / bpm) * sr)⌋).toNat := by
      omega
    simp only []
    rw [if_pos hrem]
  refine ⟨hstn0, ?_, ?_, ?_⟩
  · rw [hplan]
  · rw [hplan]
    by_cases hpre : 0 < ⌊((⌈ppq * 4⌉ : ℚ) / 4 - ppq) * ((60 / bpm) * sr)⌋
    · rw [if_pos hpre]
      by_cases htr : (ph.events (((⌊ppq * 4⌋ % (NUM_PHRASE_STEPS : Int)) +
          1) % (NUM_PHRASE_STEPS : Int)).toNat).active ∧
          randVal ≤ (ph.events (((⌊ppq * 4⌋ % (NUM_PHRASE_STEPS : Int)) +
            1) % (NUM_PHRASE_STEPS : Int)).toNat).probability
      · rw [if_pos htr]
        simp only [renderedSamples, List.foldl, List.cons_append,
          List.nil_append]
        omega
      · rw [if_neg htr]
        simp only [renderedSamples, List.foldl, List.cons_append,
          List.nil_append]
        omega
    · rw [if_neg hpre]
      by_cases htr : (ph.events (((⌊ppq * 4⌋ % (NUM_PHRASE_STEPS : Int)) +
          1) % (NUM_PHRASE_STEPS : Int)).toNat).active ∧
          randVal ≤ (ph.events (((⌊ppq * 4⌋ % (NUM_PHRASE_STEPS : Int)) +
            1) % (NUM_PHRASE_STEPS : Int)).toNat).probability
      · rw [if_pos htr]
        simp only [renderedSamples, List.foldl, List.cons_append,
          List.nil_append]
        omega
      · rw [if_neg htr]
        simp only [renderedSamples, List.foldl, List.cons_append,
          List.nil_append]
        omega
  · rw [hplan]

open Melodic MelodyEngine in
/-- C6 witness: the split-render theorem at 120 BPM, 48 kHz, ppq 1/8
and a 4096-sample block; the boundary falls 3000 samples into the
block. -/
theorem melody_split_render_tiling_witness :
    (0 : Int) ≤ ⌊((⌈(1/8 : ℚ) * 4⌉ : ℚ) / 4 - 1/8) * ((60 / 120) * 48000)⌋ ∧
      renderedSamples
        (melodyProcessBlock allActivePhrase true 120 (1/8) 48000 4096
          0).1 = 4096 ∧
      (melodyProcessBlock allActivePhrase true 120 (1/8) 48000 4096 0).2 =
        ⌊(1/8 : ℚ) * 4⌋ % (NUM_PHRASE_STEPS : Int) := by
  have hceil : ⌈(1/8 : ℚ) * 4⌉ = 1 := by
    norm_num [Int.ceil_eq_iff]
  have hval : ((⌈(1/8 : ℚ) * 4⌉ : ℚ) / 4 - 1/8) * ((60 / 120) * 48000) =
      3000 := by
    rw [hceil]
    norm_num
  have hlt : ⌊((⌈(1/8 : ℚ) * 4⌉ : ℚ) / 4 - 1/8) * ((60 / 120) * 48000)⌋ <
      ((4096 : Nat) : Int) := by
    rw [hval]
    norm_num
  have h := melody_split_render_tiling allActivePhrase 120 (1/8) 48000
    4096 0 (by norm_num) (by norm_num) (by norm_num) hlt
  exact ⟨h.1, h.2.2.1, h.2.2.2⟩

namespace MelodyEngine

/-- Every scale name resolves to one of the four installed interval
tables (unknown names fall back to Minor). -/
theorem getScaleIntervals_mem (s : String) :
    getScaleIntervals s ∈ scaleTables := by
  unfold getScaleIntervals
  split
  · simp [scaleTables]
  · split
    · simp [scaleTables]
    · split
      · simp [scaleTables]
      · split
        · simp [scaleTables]
        · simp [scaleTables]

/-- quantize only reads the root note through rootNote % 12. -/
theorem quantizeWith_mod_root (iv : List Nat) (m r : Nat) :
    quantizeWith iv m r = quantizeWith iv m (r % 12) := by
  unfold quantizeWith relativeNoteOf
  rw [Nat.mod_mod_of_dvd r (dvd_refl 12)]

set_option maxRecDepth 20000 in
/-- Table facts about the best-interval scan: the chosen interval is in
[0, 12) and belongs to the scanned table. -/
theorem scan_snd_bounds : ∀ iv ∈ scaleTables, ∀ rel : Nat, rel < 12 →
    (0 : Int) ≤ (scanScale iv (rel : Int)).2 ∧
      (scanScale iv (rel : Int)).2 < 12 ∧
      ((scanScale iv (rel : Int)).2).toNat ∈ iv := by
  decide

set_option maxRecDepth 20000 in
/-- A relative note already in the scale is matched at distance zero
and kept. -/
theorem scan_self : ∀ iv ∈ scaleTables, ∀ rel : Nat, rel < 12 →
    rel ∈ iv → scanScale iv (rel : Int) = ((0 : Int), (rel : Int)) := by
  decide

set_option maxRecDepth 20000 in
/-- Whenever the low clamp can engage (octave 0, downward octave
correction below zero), note 0 is a fixed point of the quantizer for
that root. -/
theorem fix_zero : ∀ iv ∈ scaleTables, ∀ rel : Nat, rel < 12 →
    ∀ r : Nat, r < 12 →
    (r + ((scanScale iv (rel : Int)).2).toNat < 12 ∧
      (rel + r) % 12 + 6 < r + ((scanScale iv (rel : Int)).2).toNat) →
    quantizeWith iv 0 r = 0 := by
  decide

set_option maxRecDepth 40000 in
/-- Whenever the high clamp can engage for some input below 128, note
127 is a fixed point of the quantizer for that root. -/
theorem fix_top : ∀ iv ∈ scaleTables, ∀ rel : Nat, rel < 12 →
    ∀ r : Nat, r < 12 → ∀ o : Nat, o < 11 →
    (12*o + (rel + r) % 12 ≤ 127 ∧
      ((12*o + r + ((scanScale iv (rel : Int)).2).toNat ≤
          12*o + (rel + r) % 12 + 6 ∧
        12*o + (rel + r) % 12 ≤
          12*o + r + ((scanScale iv (rel : Int)).2).toNat + 6 ∧
        127 < 12*o + r + ((scanScale iv (rel : Int)).2).toNat) ∨
       (12*o + (rel + r) % 12 + 6 <
          12*o + r + ((scanScale iv (rel : Int)).2).toNat ∧
        127 < 12*o + r + ((scanScale iv (rel : Int)).2).toNat - 12) ∨
       (12*o + r + ((scanScale iv (rel : Int)).2).toNat + 6 <
          12*o + (rel + r) % 12 ∧
        127 < 12*o + r + ((scanScale iv (rel : Int)).2).toNat + 12))) →
    quantizeWith iv 127 r = 127 := by
  decide

/-- A note whose relative position is already in the scale table is a
fixed point of the quantizer (the scan returns it at distance zero; the
reconstruction lands on the note itself or one octave up, which the
six-semitone correction undoes). -/
theorem inScale_fixed (iv : List Nat) (hiv : iv ∈ scaleTables)
    (m r : Nat) (hm : m ≤ 127) (hmem : relativeNoteOf m r ∈ iv) :
    quantizeWith iv m r = m := by
  have hrel12 : relativeNoteOf m r < 12 := Nat.mod_lt _ (by norm_num)
  have hscan := scan_self iv hiv (relativeNoteOf m r) hrel12 hmem
  unfold quantizeWith
  simp only []
  rw [hscan]
  simp only []
  unfold relativeNoteOf
  split_ifs with h1 h2 <;> omega

/-- Idempotence of the quantizer core for each installed interval
table. -/
theorem quantizeWith_idem (iv : List Nat) (hiv : iv ∈ scaleTables)
    (n r : Nat) (hn : n ≤ 127) :
    quantizeWith iv (quantizeWith iv n r) r = quantizeWith iv n r := by
  have hrel12 : relativeNoteOf n r < 12 := Nat.mod_lt _ (by norm_num)
  have hr12 : r % 12 < 12 := Nat.mod_lt _ (by norm_num)
  obtain ⟨hB0, hB12, hBmem⟩ :=
    scan_snd_bounds iv hiv (relativeNoteOf n r) hrel12
  have hreldef : relativeNoteOf n r = (n % 12 + 12 - r % 12) % 12 := rfl
  have hq : quantizeWith iv n r =
      (max 0 (min 127
        (if (((n / 12 : Nat) : Int) * 12 + ((r % 12 : Nat) : Int) +
            (scanScale iv ((relativeNoteOf n r : Nat) : Int)).2 -
            (n : Int)).natAbs > 6 then
          (if ((n / 12 : Nat) : Int) * 12 + ((r % 12 : Nat) : Int) +
              (scanScale iv ((relativeNoteOf n r : Nat) : Int)).2 >
              (n : Int) then
            ((n / 12 : Nat) : Int) * 12 + ((r % 12 : Nat) : Int) +
              (scanScale iv ((relativeNoteOf n r : Nat) : Int)).2 - 12
          else
            ((n / 12 : Nat) : Int) * 12 + ((r % 12 : Nat) : Int) +
              (scanScale iv ((relativeNoteOf n r : Nat) : Int)).2 + 12)
        else
          ((n / 12 : Nat) : Int) * 12 + ((r % 12 : Nat) : Int) +
            (scanScale iv ((relativeNoteOf n r : Nat) : Int)).2))).toNat :=
    rfl
  set B : Int := (scanScale iv ((relativeNoteOf n r : Nat) : Int)).2
    with hBdef
  set R : Int := ((n / 12 : Nat) : Int) * 12 + ((r % 12 : Nat) : Int) + B
    with hRdef
  by_cases h1 : (R - (n : Int)).natAbs > 6
  · rw [if_pos h1] at hq
    by_cases h2 : R > (n : Int)
    · rw [if_pos h2] at hq
      by_cases hlo : R - 12 < 0
      · have hM : (max 0 (min 127 (R - 12))).toNat = 0 := by omega
        rw [hM] at hq
        rw [hq, quantizeWith_mod_root]
        apply fix_zero iv hiv (relativeNoteOf n r) hrel12 (r % 12) hr12
        constructor
        · omega
        · omega
      · by_cases hhi : 127 < R - 12
        · have hM : (max 0 (min 127 (R - 12))).toNat = 127 := by omega
          rw [hM] at hq
          rw [hq, quantizeWith_mod_root]
          apply fix_top iv hiv (relativeNoteOf n r) hrel12 (r % 12) hr12
            (n / 12) (by omega)
          refine ⟨by omega, Or.inr (Or.inl ⟨by omega, by omega⟩)⟩
        · have hM : (max 0 (min 127 (R - 12))).toNat = (R - 12).toNat := by
            omega
          rw [hM] at hq
          rw [hq]
          apply inScale_fixed iv hiv _ r (by omega)
          have hrm : relativeNoteOf (R - 12).toNat r = B.toNat := by
            unfold relativeNoteOf
            omega
          rw [hrm]
          exact hBmem
    · rw [if_neg h2] at hq
      by_cases hhi : 127 < R + 12
      · have hM : (max 0 (min 127 (R + 12))).toNat = 127 := by omega
        rw [hM] at hq
        rw [hq, quantizeWith_mod_root]
        apply fix_top iv hiv (relativeNoteOf n r) hrel12 (r % 12) hr12
          (n / 12) (by omega)
        refine ⟨by omega, Or.inr (Or.inr ⟨by omega, by omega⟩)⟩
      · have hM : (max 0 (min 127 (R + 12))).toNat = (R + 12).toNat := by
          omega
        rw [hM] at hq
        rw [hq]
        apply inScale_fixed iv hiv _ r (by omega)
        have hrm : relativeNoteOf (R + 12).toNat r = B.toNat := by
          unfold relativeNoteOf
          omega
        rw [hrm]
        exact hBmem
  · rw [if_neg h1] at hq
    by_cases hhi : 127 < R
    · have hM : (max 0 (min 127 R)).toNat = 127 := by omega
      rw [hM] at hq
      rw [hq, quantizeWith_mod_root]
      apply fix_top iv hiv (relativeNoteOf n r) hrel12 (r % 12) hr12
        (n / 12) (by omega)
      refine ⟨by omega, Or.inl ⟨by omega, by omega, by omega⟩⟩
    · have hM : (max 0 (min 127 R)).toNat = R.toNat := by omega
      rw [hM] at hq
      rw [hq]
      apply inScale_fixed iv hiv _ r (by omega)
      have hrm : relativeNoteOf R.toNat r = B.toNat := by
        unfold relativeNoteOf
        omega
      rw [hrm]
      exact hBmem

end MelodyEngine

/-- C7.  The quantizer is idempotent: for every MIDI note in [0, 127],
every root note, and every scale name (known or falling back to Minor),
quantizing a quantized note returns it unchanged. -/
theorem quantize_idempotent (n root : Nat) (scaleType : String)
    (hn : n ≤ 127) :
    MelodyEngine.quantize (MelodyEngine.quantize n root scaleType) root
      scaleType = MelodyEngine.quantize n root scaleType :=
  MelodyEngine.quantizeWith_idem (MelodyEngine.getScaleIntervals scaleType)
    (MelodyEngine.getScaleIntervals_mem scaleType) n root hn

/-- C7 witness: idempotence applied at note 61, root 60, scale Minor
(where quantize gives 60). -/
theorem quantize_idempotent_witness :
    MelodyEngine.quantize (MelodyEngine.quantize 61 60 "Minor") 60
      "Minor" = MelodyEngine.quantize 61 60 "Minor" :=
  quantize_idempotent 61 60 "Minor" (by norm_num)

namespace RhythmEngine

/-- Zero samples leave the sequencer state unchanged. -/
theorem runSequencer_zero (steps : Nat → Step) (sps : Nat) (randf : Nat → ℚ)
    (st0 : SeqState) (B : Nat) :
    runSequencer steps sps randf st0 B 0 = st0 := rfl

/-- Peeling the last sample of a block. -/
theorem runSequencer_succ (steps : Nat → Step) (sps : Nat) (randf : Nat → ℚ)
    (st0 : SeqState) (B n : Nat) :
    runSequencer steps sps randf st0 B (n + 1) =
      processSampleForTrack steps sps randf
        (runSequencer steps sps randf st0 B n) (B + n) := by
  unfold runSequencer
  rw [List.range_succ, List.foldl_append, List.foldl_cons, List.foldl_nil]

/-- The first sample of a step window: the boundary is detected, the
ratchet counter resets, the gated main trigger fires, and the ratchet
check does not re-fire sub-step zero. -/
theorem process_at_boundary (steps : Nat → Step) (sps k : Nat)
    (randf : Nat → ℚ) (r0 lc : Nat) (lsl : Int) (d : Nat)
    (hsps : 1 ≤ sps) (hk : 1 ≤ k)
    (hact : (steps (k % NUM_STEPS)).active = true)
    (hgate : ∀ c, shouldTriggerLogicGate (steps (k % NUM_STEPS)).modifier c
      = true)
    (hprob : randf (k * sps) ≤ (steps (k % NUM_STEPS)).probability)
    (hmod : divisionsFor (steps (k % NUM_STEPS)).modifier = d)
    (hd : 2 ≤ d) :
    processSampleForTrack steps sps randf
      ⟨((k * sps : Nat) : Int) - 1, r0, lc, lsl, 0⟩ (k * sps) =
      ⟨((k * sps : Nat) : Int), 0,
        (if k % NUM_STEPS = 0 ∧ lsl = ((NUM_STEPS : Nat) : Int) - 1 then
          lc + 1 else lc),
        ((k % NUM_STEPS : Nat) : Int), 1⟩ := by
  have hksps : 1 ≤ k * sps := Nat.mul_pos hk hsps
  unfold processSampleForTrack
  rw [if_neg (by omega : ¬ (((k * sps : Nat) : Int) - 1 < 0))]
  have htn : (((k * sps : Nat) : Int) - 1).toNat = k * sps - 1 := by omega
  have hlast : (k * sps - 1) / sps = k - 1 := by
    apply Nat.div_eq_of_lt_le
    · have h1 : (k - 1) * sps = k * sps - sps := by
        rw [Nat.sub_mul, Nat.one_mul]
      omega
    · have h2 : (k - 1 + 1) * sps = k * sps := by
        rw [Nat.sub_add_cancel hk]
      omega
  have hcur : k * sps / sps = k := Nat.mul_div_cancel k hsps
  have hpos : k * sps % sps = 0 := Nat.mul_mod_left k sps
  have hfire : ∀ c, (triggerWithMods (steps (k % NUM_STEPS)) c
      (randf (k * sps))).1 = true := by
    intro c
    unfold triggerWithMods
    rw [hact]
    rw [hgate]
    simp only [Bool.not_true, Bool.false_eq_true, if_false]
    rw [if_neg (not_lt.mpr hprob)]
  have hdivpos : (steps (k % NUM_STEPS)).active = true ∧
      0 < divisionsFor (steps (k % NUM_STEPS)).modifier := by
    refine ⟨hact, ?_⟩
    rw [hmod]
    omega
  simp only [htn, hlast, hcur, hpos]
  rw [if_pos (by omega : k > k - 1)]
  simp only [hfire]
  rw [if_pos hdivpos]
  rw [if_neg (by
    intro hc
    have h0 := hc.1
    simp [Nat.zero_mul, Nat.zero_div] at h0)]
  simp

end RhythmEngine

namespace RhythmEngine

/-- A sample strictly inside a step window: no boundary fires, and the
ratchet check fires exactly when the fractional position crosses into a
new sub-step index below the division count. -/
theorem process_in_window (steps : Nat → Step) (sps k u : Nat)
    (randf : Nat → ℚ) (LC : Nat) (d : Nat)
    (hu : u + 1 < sps)
    (hact : (steps (k % NUM_STEPS)).active = true)
    (hmod : divisionsFor (steps (k % NUM_STEPS)).modifier = d)
    (hd : 2 ≤ d) (hds : d ≤ sps) :
    processSampleForTrack steps sps randf
      ⟨((k * sps + u : Nat) : Int), u * d / sps, LC,
        ((k % NUM_STEPS : Nat) : Int), 1 + u * d / sps⟩
      (k * sps + (u + 1)) =
      ⟨((k * sps + (u + 1) : Nat) : Int), (u + 1) * d / sps, LC,
        ((k % NUM_STEPS : Nat) : Int), 1 + (u + 1) * d / sps⟩ := by
  have hsps : 0 < sps := by omega
  have htn : (((k * sps + u : Nat) : Int)).toNat = k * sps + u :=
    Int.toNat_natCast _
  have hlast : (k * sps + u) / sps = k := by
    rw [Nat.add_comm, Nat.add_mul_div_right u k hsps,
      Nat.div_eq_of_lt (by omega)]
    omega
  have hcur : (k * sps + (u + 1)) / sps = k := by
    rw [Nat.add_comm, Nat.add_mul_div_right (u + 1) k hsps,
      Nat.div_eq_of_lt (by omega)]
    omega
  have hpos : (k * sps + (u + 1)) % sps = u + 1 := by
    rw [Nat.add_comm, Nat.add_mul_mod_self_right,
      Nat.mod_eq_of_lt (by omega)]
  have hdivpos : (steps (k % NUM_STEPS)).active = true ∧
      0 < divisionsFor (steps (k % NUM_STEPS)).modifier := by
    refine ⟨hact, ?_⟩
    rw [hmod]
    omega
  have hmono : u * d / sps ≤ (u + 1) * d / sps :=
    Nat.div_le_div_right (Nat.mul_le_mul_right d (by omega))
  have hstep : (u + 1) * d / sps ≤ u * d / sps + 1 := by
    have h1 : (u + 1) * d = u * d + d := by
      rw [Nat.succ_mul]
    have h2 : (u + 1) * d ≤ u * d + sps := by omega
    calc (u + 1) * d / sps ≤ (u * d + sps) / sps :=
          Nat.div_le_div_right h2
      _ = u * d / sps + 1 := Nat.add_div_right _ hsps
  have hltd : (u + 1) * d / sps < d := by
    rw [Nat.div_lt_iff_lt_mul hsps]
    have : (u + 1) * d ≤ sps * d := Nat.mul_le_mul_right d (by omega)
    have hne : (u + 1) * d ≠ sps * d := by
      intro he
      have := Nat.eq_of_mul_eq_mul_right (by omega : 0 < d) he
      omega
    calc (u + 1) * d < sps * d := by omega
      _ = d * sps := Nat.mul_comm sps d
  unfold processSampleForTrack
  rw [if_neg (by omega : ¬ (((k * sps + u : Nat) : Int) < 0))]
  simp only [htn, hlast, hcur, hpos]
  rw [if_neg (by omega : ¬ (k > k))]
  rw [if_pos hdivpos]
  rw [hmod]
  dsimp only
  by_cases hcase : (u + 1) * d / sps = u * d / sps
  · rw [if_neg (by
      intro hc
      have := hc.1
      omega)]
    simp [hcase]
  · have heq : (u + 1) * d / sps = u * d / sps + 1 := by omega
    rw [if_pos (by
      refine ⟨by omega, hltd⟩)]
    simp [heq]
    omega

end RhythmEngine

namespace RhythmEngine

/-- Invariant over one step's window: after j samples the ratchet
counter equals the current sub-step index and the trigger count is one
(main trigger) plus the number of sub-step crossings so far. -/
theorem ratchet_window_invariant (steps : Nat → Step) (sps k : Nat)
    (randf : Nat → ℚ) (r0 lc : Nat) (lsl : Int) (d : Nat)
    (hk : 1 ≤ k)
    (hact : (steps (k % NUM_STEPS)).active = true)
    (hgate : ∀ c, shouldTriggerLogicGate (steps (k % NUM_STEPS)).modifier c
      = true)
    (hprob : randf (k * sps) ≤ (steps (k % NUM_STEPS)).probability)
    (hmod : divisionsFor (steps (k % NUM_STEPS)).modifier = d)
    (hd : 2 ≤ d) (hds : d ≤ sps) :
    ∀ j, 1 ≤ j → j ≤ sps →
    runSequencer steps sps randf
      ⟨((k * sps : Nat) : Int) - 1, r0, lc, lsl, 0⟩ (k * sps) j =
      ⟨((k * sps + (j - 1) : Nat) : Int), (j - 1) * d / sps,
        (if k % NUM_STEPS = 0 ∧ lsl = ((NUM_STEPS : Nat) : Int) - 1 then
          lc + 1 else lc),
        ((k % NUM_STEPS : Nat) : Int), 1 + (j - 1) * d / sps⟩ := by
  intro j
  induction j with
  | zero => omega
  | succ m ih =>
    intro _ hle
    by_cases hm : m = 0
    · subst hm
      rw [runSequencer_succ, runSequencer_zero, Nat.add_zero]
      have hb := process_at_boundary steps sps k randf r0 lc lsl d
        (by omega) hk hact hgate hprob hmod hd
      rw [hb]
      simp
    · have ihm := ih (by omega) (by omega)
      rw [runSequencer_succ, ihm]
      have hw := process_in_window steps sps k (m - 1) randf
        (if k % NUM_STEPS = 0 ∧ lsl = ((NUM_STEPS : Nat) : Int) - 1 then
          lc + 1 else lc) d (by omega) hact hmod hd hds
      have hm1 : m - 1 + 1 = m := by omega
      rw [hm1] at hw
      rw [hw]
      simp

/-- Over one full step duration, a track with an active ratcheted step
fires exactly divisions many times: the main trigger plus divisions - 1
sub-step re-fires. -/
theorem ratchet_window_count (steps : Nat → Step) (sps k : Nat)
    (randf : Nat → ℚ) (r0 lc : Nat) (lsl : Int) (d : Nat)
    (hk : 1 ≤ k)
    (hact : (steps (k % NUM_STEPS)).active = true)
    (hgate : ∀ c, shouldTriggerLogicGate (steps (k % NUM_STEPS)).modifier c
      = true)
    (hprob : randf (k * sps) ≤ (steps (k % NUM_STEPS)).probability)
    (hmod : divisionsFor (steps (k % NUM_STEPS)).modifier = d)
    (hd : 2 ≤ d) (hds : d ≤ sps) :
    (runSequencer steps sps randf
      ⟨((k * sps : Nat) : Int) - 1, r0, lc, lsl, 0⟩ (k * sps)
      sps).triggerCount = d := by
  have hinv := ratchet_window_invariant steps sps k randf r0 lc lsl d hk
    hact hgate hprob hmod hd hds sps (by omega) (le_refl sps)
  rw [hinv]
  have h1 : (d - 1) * sps = d * sps - sps := by
    rw [Nat.sub_mul, Nat.one_mul]
  have h2 : (sps - 1) * d = sps * d - d := by
    rw [Nat.sub_mul, Nat.one_mul]
  have h3 : sps * d = d * sps := Nat.mul_comm sps d
  have hlastdiv : (sps - 1) * d / sps = d - 1 := by
    apply Nat.div_eq_of_lt_le
    · rw [h1, h2, h3]
      exact Nat.sub_le_sub_left hds (d * sps)
    · rw [h2, h3, Nat.sub_add_cancel (by omega : 1 ≤ d)]
      exact Nat.sub_lt (Nat.mul_pos (by omega) (by omega)) (by omega)
  dsimp only
  rw [hlastdiv]
  omega

end RhythmEngine

open RhythmEngine in
/-- C3.  For an active step with modifier Ratchet2 the sequencer fires
that track's voice exactly twice within the step's duration, and for
Ratchet4 exactly four times: the main step-boundary trigger plus the
sub-step re-fires when the fractional position within the step crosses
into a new sub-step index less than the division count; the first
sub-step is never re-fired. -/
theorem ratchet_fires_exactly_divisions_times (steps : Nat → Step)
    (sps k : Nat) (randf : Nat → ℚ) (r0 lc : Nat) (lsl : Int) (d : Nat)
    (hmod : ((steps (k % NUM_STEPS)).modifier = StepModifier.Ratchet2 ∧
        d = 2) ∨
      ((steps (k % NUM_STEPS)).modifier = StepModifier.Ratchet4 ∧ d = 4))
    (hk : 1 ≤ k) (hds : d ≤ sps)
    (hact : (steps (k % NUM_STEPS)).active = true)
    (hprob : randf (k * sps) ≤ (steps (k % NUM_STEPS)).probability) :
    (runSequencer steps sps randf
      ⟨((k * sps : Nat) : Int) - 1, r0, lc, lsl, 0⟩ (k * sps)
      sps).triggerCount = d := by
  rcases hmod with ⟨hm, hd2⟩ | ⟨hm, hd4⟩
  · subst hd2
    exact ratchet_window_count steps sps k randf r0 lc lsl 2 hk hact
      (fun c => by rw [hm]; rfl) hprob (by rw [hm]; rfl) (by omega) hds
  · subst hd4
    exact ratchet_window_count steps sps k randf r0 lc lsl 4 hk hact
      (fun c => by rw [hm]; rfl) hprob (by rw [hm]; rfl) (by omega) hds

open RhythmEngine in
/-- C3 witness: a track row with an active Ratchet2 step at index 1,
four samples per step, starting at the step boundary: exactly two
voice triggers over the step. -/
theorem ratchet_fires_exactly_divisions_times_witness :
    (runSequencer ratchetDemoSteps 4 (fun _ => 0)
      ⟨((1 * 4 : Nat) : Int) - 1, 0, 0, -1, 0⟩ (1 * 4) 4).triggerCount =
      2 :=
  ratchet_fires_exactly_divisions_times ratchetDemoSteps 4 1 (fun _ => 0)
    0 0 (-1) 2 (Or.inl ⟨by decide, rfl⟩) (by omega) (by omega) (by decide)
    (by norm_num [ratchetDemoSteps, NUM_STEPS])
